import Mathlib

/-!
# Verification of the reactivity core of a Vue-like framework

Shallow embedding, in Lean 4, of the reactive dependency-tracking engine
(`src/core/observer/*`), the update scheduler (`src/core/observer/scheduler.js`)
and parts of the virtual-DOM patch algorithm (`src/core/vdom/patch.js`) of the
repository, together with proofs of the specification claims about them.

Conventions used throughout:

* Watcher ids and Dep ids are modelled as `Nat` (the source uses monotonically
  increasing integer uids).
* JavaScript ordered id-`Set`s and arrays of deps are both modelled as
  `List Nat` in insertion order.
* JavaScript values, where their identity / `===` semantics matters, are
  modelled by the `JSVal` inductive below, with reference types carrying a
  numeric identity.
-/

namespace VueCore

/-- A model of JavaScript values as far as the reactivity core needs them:
`===`-comparable primitives plus reference values (objects / arrays)
identified by a numeric id.  `nan` is kept separate from other numbers
because `NaN === NaN` is `false` in JavaScript. -/
inductive JSVal where
  | undef : JSVal
  | nul : JSVal
  | bool : Bool → JSVal
  | num : Int → JSVal
  | nan : JSVal
  | str : String → JSVal
  | obj : Nat → JSVal
  | arr : Nat → JSVal
deriving DecidableEq, Repr

/-- JavaScript strict equality `===` on the modelled values: structural on
primitives, reference (id) equality on objects/arrays, and `NaN === NaN`
is `false`. -/
def jsEq : JSVal → JSVal → Bool
  | .nan, _ => false
  | _, .nan => false
  | a, b => a == b

/-- `isDef` from `shared/util`: a value is defined iff it is neither
`undefined` nor `null`. -/
def isDefV : JSVal → Bool
  | .undef => false
  | .nul => false
  | _ => true

/-- `isObject` from `shared/util` restricted to our value model: objects and
arrays are the container (reference) values. -/
def isContainer : JSVal → Bool
  | .obj _ => true
  | .arr _ => true
  | _ => false

/-!
## Watcher dependency tracking (`src/core/observer/watcher.js`)

The state of one `Watcher`'s subscription bookkeeping, as seen across a run
of `get()`.  `deps` / `newDeps` are the arrays of `Dep`s (represented by
their ids, which determine them), `depIds` / `newDepIds` the corresponding
id sets (JS `Set` keeps insertion order, so a `List Nat` without duplicates
is a faithful model).  `subs` records, with multiplicity, the dep ids `d`
such that this watcher currently occurs in `d`'s subscriber array `subs`:
`Dep.addSub` pushes the watcher onto that array and `Dep.removeSub` removes
one occurrence, so `WState.subs` lists one entry per occurrence. -/
structure WState where
  depIds : List Nat
  newDepIds : List Nat
  deps : List Nat
  newDeps : List Nat
  subs : List Nat
deriving DecidableEq, Repr

/-- `Watcher.addDep(dep)` (watcher.js lines 176–206): if `dep.id` is not in
the per-run set `newDepIds`, record it in `newDepIds` and `newDeps`; and if
it is also not in the previous-run set `depIds`, call `dep.addSub(this)`
(modelled by appending `dep.id` to `subs`). -/
def addDep (s : WState) (id : Nat) : WState :=
  if id ∈ s.newDepIds then s
  else if id ∈ s.depIds then
    { s with newDepIds := s.newDepIds ++ [id], newDeps := s.newDeps ++ [id] }
  else
    { s with newDepIds := s.newDepIds ++ [id], newDeps := s.newDeps ++ [id],
             subs := s.subs ++ [id] }

/-- `Watcher.cleanupDeps()` (watcher.js lines 211–227): walk `deps` from the
end; every dep whose id is not in `newDepIds` gets `removeSub(this)`
(modelled by `List.erase`, which removes one occurrence, like the `remove`
util's splice-at-indexOf).  Then swap `depIds`/`newDepIds` and
`deps`/`newDeps`, clearing the "new" containers. -/
def cleanupDeps (s : WState) : WState :=
  { depIds := s.newDepIds
    newDepIds := []
    deps := s.newDeps
    newDeps := []
    subs := s.deps.foldr
      (fun d acc => if d ∈ s.newDepIds then acc else acc.erase d) s.subs }

/-- One completed run of `Watcher.get()` as far as dependency bookkeeping is
concerned: the getter reads a sequence of reactive properties; each read
fires `dep.depend()`, i.e. `Dep.target.addDep(dep)`, in order; afterwards
`cleanupDeps` reconciles the subscriptions.  `reads` is the sequence of dep
ids touched by the getter during this run. -/
def runGet (s : WState) (reads : List Nat) : WState :=
  cleanupDeps (reads.foldl addDep s)

/-- The between-runs well-formedness invariant of a watcher's bookkeeping
state: the per-run containers are empty, `depIds` mirrors `deps` (same ids,
same insertion order), `deps` has no duplicates, and the watcher occurs in
exactly the subscriber lists of the deps it holds, once each.  The initial
state (all empty, watcher.js constructor) satisfies it. -/
def WStateWF (s : WState) : Prop :=
  s.newDepIds = [] ∧ s.newDeps = [] ∧ s.depIds = s.deps ∧ s.deps.Nodup ∧
    s.subs.Nodup ∧ ∀ d, d ∈ s.subs ↔ d ∈ s.deps

/-- The generalized invariant holding at every intermediate point of the
`addDep` fold inside a run. -/
def MidRunInv (s : WState) : Prop :=
  s.newDepIds.Nodup ∧ s.newDeps = s.newDepIds ∧ s.depIds = s.deps ∧
    s.deps.Nodup ∧ s.subs.Nodup ∧
    ∀ d, d ∈ s.subs ↔ (d ∈ s.deps ∨ (d ∈ s.newDepIds ∧ d ∉ s.depIds))

/-!
## Scheduler (`src/core/observer/scheduler.js`)

Watchers are represented by their numeric `id` (ids are unique, so the id
determines the watcher).  `has` models the presence set (`has[id] = true` /
`null`) as the list of ids currently present; `circular` models the dev-mode
per-id re-entry counter object as an association list (`circular[id] || 0`
reads a missing entry as `0`).  The fields `ran` (ids in run order),
`warned` (watcher id reported by the infinite-loop `warn`) and `aborted`
(the flush loop hit `break`) are observation-only instrumentation recording
what the flush did; no scheduler branch reads them. -/
structure Sched where
  queue : List Nat
  has : List Nat
  circular : List (Nat × Nat)
  waiting : Bool
  flushing : Bool
  index : Nat
  ran : List Nat
  warned : Option Nat
  aborted : Bool
deriving DecidableEq, Repr

/-- `MAX_UPDATE_COUNT` (scheduler.js line 9). -/
def MAX_UPDATE_COUNT : Nat := 100

/-- Read `circular[id] || 0`. -/
def circGet (c : List (Nat × Nat)) (id : Nat) : Nat :=
  match c.find? (fun p => p.1 == id) with
  | some p => p.2
  | none => 0

/-- Write `circular[id] = v`. -/
def circSet : List (Nat × Nat) → Nat → Nat → List (Nat × Nat)
  | [], id, v => [(id, v)]
  | p :: rest, id, v =>
      if p.1 = id then (id, v) :: rest else p :: circSet rest id v

/-- The index scan of `queueWatcher`'s flushing branch (scheduler.js lines
218–221): starting at `i`, decrement while `i > index && queue[i].id >
watcher.id`; the watcher is then spliced in at the returned position plus
one. -/
def spliceLoop (queue : List Nat) (index id : Nat) : Nat → Nat
  | 0 => 0
  | j + 1 =>
      if index < j + 1 ∧ id < queue.getD (j + 1) 0 then
        spliceLoop queue index id j
      else j + 1

/-- `queue.splice(i, 0, a)`: insert `a` at position `i` (clamped to the
length, as JS `splice` does). -/
def spliceIns (l : List Nat) (i : Nat) (a : Nat) : List Nat :=
  l.take i ++ a :: l.drop i

/-- `queueWatcher(watcher)` (scheduler.js lines 196–252).  A no-op when the
id is already in the presence set.  Otherwise the id is recorded and the
watcher is appended to the queue (not flushing) or spliced into the queue
right after the last position `> index` holding a larger id (flushing).
The `waiting` flag is raised; the `nextTick(flushSchedulerQueue)` call (and
the dev-only synchronous flush when `config.async` is off) hands control to
the external deferred-callback primitive and is outside this model. -/
def queueWatcher (s : Sched) (id : Nat) : Sched :=
  if id ∈ s.has then s
  else if s.flushing then
    { s with
      has := s.has ++ [id]
      queue := spliceIns s.queue
        (spliceLoop s.queue s.index id (s.queue.length - 1) + 1) id
      waiting := true }
  else
    { s with has := s.has ++ [id], queue := s.queue ++ [id], waiting := true }

/-- One run of the watcher at the cursor, as the flush loop performs it
(scheduler.js lines 102–118): read `watcher = queue[index]`, clear
`has[id]`, record the run, then perform `watcher.run()`.  Running a watcher
re-evaluates it; the only effect on the scheduler is that reactive writes
made during the run notify deps, whose subscribers are handed to
`queueWatcher` — the parameter `enq` gives, per watcher id, the ids its run
enqueues, in order.  (`watcher.before` only fires lifecycle hooks.) -/
def flushStepState (enq : Nat → List Nat) (s : Sched) : Sched :=
  (enq (s.queue.getD s.index 0)).foldl queueWatcher
    { s with
      has := s.has.erase (s.queue.getD s.index 0)
      ran := s.ran ++ [s.queue.getD s.index 0] }

/-- `circular[id] = (circular[id] || 0) + 1` (scheduler.js line 121). -/
def bumpCircular (s : Sched) (w : Nat) : Sched :=
  { s with circular := circSet s.circular w (circGet s.circular w + 1) }

/-- The `for` loop of `flushSchedulerQueue` (scheduler.js lines 102–133),
with an explicit fuel bound: `none` means the fuel ran out before the loop
finished (the loop genuinely does not terminate for some watcher
behaviours; fuel is a totality device, not part of the model).  `dev` is
`process.env.NODE_ENV !== "production"`: only then is the re-entry counter
maintained and the `break` reachable. -/
def flushLoopO (dev : Bool) (enq : Nat → List Nat) : Nat → Sched → Option Sched
  | 0, _ => none
  | fuel + 1, s =>
      if s.index < s.queue.length then
        if dev = true ∧ s.queue.getD s.index 0 ∈ (flushStepState enq s).has then
          if MAX_UPDATE_COUNT <
              circGet (flushStepState enq s).circular (s.queue.getD s.index 0) + 1 then
            some { bumpCircular (flushStepState enq s) (s.queue.getD s.index 0) with
                   aborted := true
                   warned := some (s.queue.getD s.index 0) }
          else
            flushLoopO dev enq fuel
              { bumpCircular (flushStepState enq s) (s.queue.getD s.index 0) with
                index := s.index + 1 }
        else
          flushLoopO dev enq fuel { flushStepState enq s with index := s.index + 1 }
      else some s

/-- The entry of `flushSchedulerQueue` (scheduler.js lines 70–102): set
`flushing`, sort the queue ascending by watcher id, start the cursor at 0. -/
def flushInit (s : Sched) : Sched :=
  { s with flushing := true, queue := s.queue.mergeSort (· ≤ ·), index := 0 }

/-- `resetSchedulerState` (scheduler.js lines 22–29): clear cursor, queue
and presence set; reset the re-entry counters only in a dev build; lower
both flags. -/
def resetSchedulerState (dev : Bool) (s : Sched) : Sched :=
  { s with
    index := 0
    queue := []
    has := []
    circular := if dev then [] else s.circular
    waiting := false
    flushing := false }

/-- `flushSchedulerQueue` as far as the scheduler state is concerned: init,
loop, reset.  (The `updated`/`activated` hook phases after the reset only
fire lifecycle hooks.) -/
def flushSchedulerQueue (dev : Bool) (enq : Nat → List Nat) (fuel : Nat)
    (s : Sched) : Option Sched :=
  (flushLoopO dev enq fuel (flushInit s)).map (resetSchedulerState dev)

/-- The behaviour of a watcher whose run synchronously mutates one of its
own dependencies every time: its only scheduler effect is re-enqueueing
itself. -/
def selfRequeue : Nat → List Nat := fun i => [i]

/-- The scheduler state reached when the flush loop is about to start its
`k`-th iteration (0-based) on the self-requeueing watcher `1`, having
started from the one-element queue `[1]`: every earlier iteration ran the
watcher, which spliced itself back in right behind the cursor. -/
def selfState (k : Nat) : Sched :=
  { queue := List.replicate (k + 1) 1
    has := [1]
    circular := if k = 0 then [] else [(1, k)]
    waiting := !(k == 0)
    flushing := true
    index := k
    ran := List.replicate k 1
    warned := none
    aborted := false }

/-!
## Reactive property setter (`src/core/observer/index.js`, `defineReactive`)
-/

/-- The state of one reactive property slot, as the closure state of
`defineReactive`'s accessors (plain data path: no pre-existing
getter/setter, `shallow` unset): the stored `val`, whether `childOb`
currently holds an observer (`observe` returns one exactly for container
values in this model), and how many times `dep.notify()` has fired
(observation-only counter). -/
structure RCell where
  value : JSVal
  childObserved : Bool
  notifyCount : Nat
deriving DecidableEq, Repr

/-- `reactiveSetter` (observer/index.js lines 242–264), plain-value path:
`if (newVal === value || (newVal !== newVal && value !== value)) return;`
then store the new value, `childOb = observe(newVal)`, `dep.notify()`.
(`customSetter` only emits a dev warning; the accessor-property branches
`getter`/`setter` do not arise for plain data properties.) -/
def reactiveSetter (c : RCell) (newVal : JSVal) : RCell :=
  if jsEq newVal c.value || (!jsEq newVal newVal && !jsEq c.value c.value) then c
  else
    { value := newVal
      childObserved := isContainer newVal
      notifyCount := c.notifyCount + 1 }

/-!
## Intercepted array mutators (`src/core/observer/array.js`)
-/

/-- The seven patched `Array.prototype` methods (`methodsToPatch`). -/
inductive ArrMethod where
  | push | pop | shift | unshift | splice | sort | reverse
deriving DecidableEq, Repr

/-- What an intercepted call returns: a plain value (push/pop/shift/unshift)
or an array (splice's removed slice; sort/reverse return the array). -/
inductive JSRes where
  | val : JSVal → JSRes
  | list : List JSVal → JSRes
deriving DecidableEq, Repr

/-- JS `ToIntegerOrInfinity` restricted to this value model: numbers pass
through, everything else (including `NaN` and `undefined`) coerces to 0. -/
def jsToInt : JSVal → Int
  | .num n => n
  | _ => 0

/-- Modelled from the spec: the default comparator of the platform's
`Array.prototype.sort` (compare as strings, `undefined` always last) —
the platform built-in is outside the repository. -/
def jsSortKey : JSVal → String
  | .num n => toString n
  | .nan => "NaN"
  | .str s => s
  | .bool b => cond b "true" "false"
  | .nul => "null"
  | .obj _ => "[object Object]"
  | .arr _ => ""
  | .undef => ""

/-- Modelled from the spec: `undefined` sorts after everything else;
otherwise compare default string keys. -/
def jsSortLe (a b : JSVal) : Bool :=
  if a = .undef then b == .undef
  else if b = .undef then true
  else jsSortKey a ≤ jsSortKey b

/-- Modelled from the spec: the original `Array.prototype` mutators that
the interceptor delegates to (`const original = arrayProto[method]`) —
they are platform built-ins, outside the repository.  Each returns the
mutated array contents and the JS return value: `push`/`unshift` the new
length, `pop`/`shift` the removed element (or `undefined`), `splice` the
removed slice (with JS start/deleteCount clamping), `sort`/`reverse` the
array itself. -/
def runOriginal : ArrMethod → List JSVal → List JSVal → List JSVal × JSRes
  | .push, items, args =>
      (items ++ args, .val (.num ((items.length + args.length : Nat) : Int)))
  | .pop, items, _ => (items.dropLast, .val ((items.getLast?).getD .undef))
  | .shift, items, _ => (items.tail, .val ((items.head?).getD .undef))
  | .unshift, items, args =>
      (args ++ items, .val (.num ((args.length + items.length : Nat) : Int)))
  | .splice, items, args =>
      ((items.take (spliceStart items args)) ++ args.drop 2 ++
          items.drop (spliceStart items args + spliceDelCount items args),
        .list ((items.drop (spliceStart items args)).take (spliceDelCount items args)))
  | .sort, items, _ => (items.mergeSort jsSortLe, .list (items.mergeSort jsSortLe))
  | .reverse, items, _ => (items.reverse, .list items.reverse)
where
  spliceStart (items : List JSVal) (args : List JSVal) : Nat :=
    (if jsToInt (args.getD 0 .undef) < 0 then
        max ((items.length : Int) + jsToInt (args.getD 0 .undef)) 0
      else min (jsToInt (args.getD 0 .undef)) (items.length : Int)).toNat
  spliceDelCount (items : List JSVal) (args : List JSVal) : Nat :=
    if args.length = 0 then 0
    else if args.length = 1 then items.length - spliceStart items args
    else (min (max (jsToInt (args.getD 1 .undef)) 0)
      ((items.length : Int) - (spliceStart items args : Int))).toNat

/-- The `switch (method)` of the mutator (array.js): which arguments count
as newly inserted elements. -/
def insertedOf : ArrMethod → List JSVal → Option (List JSVal)
  | .push, args => some args
  | .unshift, args => some args
  | .splice, args => some (args.drop 2)
  | _, _ => none

/-- The state of one observed array: its contents, the values handed to
`ob.observeArray` so far (in call order — `observeArray` observes each of
them in turn), and the number of `ob.dep.notify()` calls (both
observation-only). -/
structure ArrOb where
  items : List JSVal
  observedQueue : List JSVal
  notifyCount : Nat
deriving DecidableEq, Repr

/-- The interceptor `mutator` installed for each patched method (array.js
lines 28–55): run the original method, record `inserted` per the switch,
`if (inserted) ob.observeArray(inserted)`, always `ob.dep.notify()`, and
return the original's result. -/
def mutator (m : ArrMethod) (args : List JSVal) (s : ArrOb) : ArrOb × JSRes :=
  ({ items := (runOriginal m s.items args).1
     observedQueue := s.observedQueue ++ (insertedOf m args).getD []
     notifyCount := s.notifyCount + 1 },
   (runOriginal m s.items args).2)

/-!
## Virtual-DOM node identity (`src/core/vdom/patch.js`, `sameVnode`)
-/

/-- An async component factory object, by reference identity (`id`) plus
whether its `error` property is currently defined. -/
structure AsyncF where
  id : Nat
  errorDef : Bool
deriving DecidableEq, Repr

/-- The `attrs` object of a vnode's data, restricted to the field
`sameInputType` reads: `type`, a string or absent (`undefined`). -/
structure AttrsL where
  type : Option String
deriving DecidableEq, Repr

/-- A vnode's `data` object, restricted to the field reads of `sameVnode` /
`sameInputType`: only whether it exists and its optional `attrs.type`. -/
structure VNodeData where
  attrs : Option AttrsL
deriving DecidableEq, Repr

/-- The fields of a vnode that `sameVnode` reads.  `key` and `tag` are
arbitrary JS values (`undefined` when absent); `asyncFactory` is
`undefined` or an object. -/
structure VNodeL where
  key : JSVal
  asyncFactory : Option AsyncF
  tag : JSVal
  isComment : Bool
  data : Option VNodeData
  isAsyncPlaceholder : Bool
deriving DecidableEq, Repr

/-- `a.asyncFactory === b.asyncFactory`: `undefined === undefined` is true,
objects compare by reference identity. -/
def facEq : Option AsyncF → Option AsyncF → Bool
  | none, none => true
  | some f, some g => f.id == g.id
  | _, _ => false

/-- `isUndef(f.error)` for a factory reference.  (When the factory itself
is `undefined` the JS source would throw on the property read; vnodes with
`isAsyncPlaceholder` set always carry a factory, which the theorems state
as a hypothesis.) -/
def facErrorUndef : Option AsyncF → Bool
  | none => true
  | some f => !f.errorDef

/-- The computation `isDef(i = x.data) && isDef(i = i.attrs) && i.type`
from `sameInputType`: short-circuits to the boolean `false` when `data` or
`attrs` is missing, else yields the `type` attribute (possibly
`undefined`). -/
def inputTypeOf (a : VNodeL) : JSVal :=
  match a.data with
  | none => .bool false
  | some d =>
      match d.attrs with
      | none => .bool false
      | some ats => match ats.type with
        | none => .undef
        | some s => .str s

/-- Modelled from the spec: `isTextInputType` from `web/util/element` (not
under `src/`) — membership of the type string in
`text,number,password,search,email,tel,url`; any non-string (including the
boolean `false` produced above) is not in the map. -/
def isTextInputType : JSVal → Bool
  | .str s =>
      ["text", "number", "password", "search", "email", "tel", "url"].contains s
  | _ => false

/-- `sameInputType(a, b)` (patch.js lines 60–74). -/
def sameInputType (a b : VNodeL) : Bool :=
  if jsEq a.tag (JSVal.str "input") = false then true
  else
    jsEq (inputTypeOf a) (inputTypeOf b) ||
      (isTextInputType (inputTypeOf a) && isTextInputType (inputTypeOf b))

/-- `sameVnode(a, b)` (patch.js lines 43–55). -/
def sameVnode (a b : VNodeL) : Bool :=
  jsEq a.key b.key && facEq a.asyncFactory b.asyncFactory &&
    ((jsEq a.tag b.tag && (a.isComment == b.isComment) &&
        (a.data.isSome == b.data.isSome) && sameInputType a b) ||
      (a.isAsyncPlaceholder && facErrorUndef b.asyncFactory))

/-- The claim's own wording of `sameVnode`'s second disjunct — "both are
unresolved async placeholders with no error" — together with the rest of
its description, as one predicate: used to compare the specification text
against the source. -/
def sameVnodeClaim (a b : VNodeL) : Bool :=
  jsEq a.key b.key && facEq a.asyncFactory b.asyncFactory &&
    ((jsEq a.tag b.tag && (a.isComment == b.isComment) &&
        (a.data.isSome == b.data.isSome) && sameInputType a b) ||
      (a.isAsyncPlaceholder && b.isAsyncPlaceholder &&
        facErrorUndef a.asyncFactory && facErrorUndef b.asyncFactory))

/-- The amended description of `sameVnode` as a proposition: as the claim,
except that the async-placeholder disjunct only requires `a` to be an
unresolved async placeholder and the (shared) factory as read through `b`
to have no error — the source never consults `b.isAsyncPlaceholder`. -/
def sameVnodeSpecAmended (a b : VNodeL) : Prop :=
  jsEq a.key b.key = true ∧ facEq a.asyncFactory b.asyncFactory = true ∧
    ((jsEq a.tag b.tag = true ∧ a.isComment = b.isComment ∧
        a.data.isSome = b.data.isSome ∧
        (a.tag = JSVal.str "input" →
          jsEq (inputTypeOf a) (inputTypeOf b) = true ∨
            (isTextInputType (inputTypeOf a) = true ∧
              isTextInputType (inputTypeOf b) = true))) ∨
      (a.isAsyncPlaceholder = true ∧ facErrorUndef b.asyncFactory = true))

/-!
## Explicit `set(target, key, val)` (`src/core/observer/index.js` lines 273–307)
-/

/-- JS property-key coercion `String(key)` for the values of this model. -/
def jsPropKey : JSVal → String
  | .str s => s
  | .num n => toString n
  | .nan => "NaN"
  | .bool b => cond b "true" "false"
  | .nul => "null"
  | .undef => "undefined"
  | .obj _ => "[object Object]"
  | .arr _ => ""

/-- Modelled from the spec: `isValidArrayIndex` from `shared/util` (not
under `src/`) — a non-negative integer, possibly written as a numeric
string. -/
def isValidArrayIndex : JSVal → Bool
  | .num n => 0 ≤ n
  | .str s => !s.data.isEmpty && s.data.all Char.isDigit
  | _ => false

/-- The numeric value of a valid array index. -/
def keyToNat : JSVal → Nat
  | .num n => n.toNat
  | .str s => s.data.foldl (fun a c => a * 10 + (c.toNat - 48)) 0
  | _ => 0

/-- The property names every plain object inherits from the platform's
`Object.prototype` (a platform built-in, outside the repository): these
make `key in Object.prototype` true. -/
def objectProtoKeys : List String :=
  ["constructor", "hasOwnProperty", "isPrototypeOf", "propertyIsEnumerable",
    "toLocaleString", "toString", "valueOf", "__proto__", "__defineGetter__",
    "__defineSetter__", "__lookupGetter__", "__lookupSetter__"]

/-- Own-property lookup on a plain object's field list. -/
def hasOwnF (fields : List (String × JSVal)) (k : String) : Bool :=
  (fields.find? (fun p => p.1 == k)).isSome

/-- `fields[k] = v` on a plain object's field list. -/
def setField : List (String × JSVal) → String → JSVal → List (String × JSVal)
  | [], k, v => [(k, v)]
  | p :: rest, k, v => if p.1 = k then (k, v) :: rest else p :: setField rest k v

/-- The property names an array inherits from the platform's
`Array.prototype` (a platform built-in, outside the repository): for a
non-index key, these and the own `length` make `key in target` true on an
array.  `toString` and `toLocaleString` shadow `Object.prototype`'s, but
`key in Object.prototype` is still true for them. -/
def arrayProtoKeys : List String :=
  ["length", "push", "pop", "shift", "unshift", "splice", "sort", "reverse",
    "concat", "join", "slice", "indexOf", "lastIndexOf", "forEach", "map",
    "filter", "reduce", "reduceRight", "some", "every", "find", "findIndex",
    "fill", "copyWithin", "entries", "keys", "values", "includes", "flat",
    "flatMap", "at", "toString", "toLocaleString"]

/-- A `set` target: an array (its elements, whether it carries an
`__ob__`, and that observer's `vmCount`), or a plain object (its own
string-keyed fields, whether it carries an `__ob__`, its `_isVue` flag,
and its observer's `vmCount`).  Arrays are never Vue instances, so they
carry no `_isVue`.  String-keyed expando properties of arrays live on the
array object, not in `items`, and are not modelled. -/
inductive VTarget where
  | arr (items : List JSVal) (hasOb : Bool) (vmCount : Nat)
  | obj (fields : List (String × JSVal)) (hasOb : Bool) (isVue : Bool) (vmCount : Nat)
deriving DecidableEq, Repr

/-- What one `set(target, key, val)` call did: the resulting target, the
return value, whether the container observer's `dep.notify()` fired,
which key (if any) was freshly instrumented via `defineReactive`, and
whether the root-data warning fired. -/
structure SetResult where
  target : VTarget
  returned : JSVal
  notified : Bool
  definedReactive : Option String
  warned : Bool
deriving DecidableEq, Repr

/-- `target.length = Math.max(target.length, key)`: extending an array's
`length` fills the gap with holes, which read back as `undefined`. -/
def padTo (items : List JSVal) (n : Nat) : List JSVal :=
  items ++ List.replicate (n - items.length) JSVal.undef

/-- Modelled platform behaviour: the exotic write `target.length = val` on
a JS array, which truncates or hole-pads the elements to the new length.
Only nonnegative numeric lengths are modelled; the platform's string
coercions and its `RangeError` on invalid lengths are outside the
repository and this model (the elements are left unchanged there). -/
def setArrayLength (items : List JSVal) (val : JSVal) : List JSVal :=
  match val with
  | .num n => if 0 ≤ n then (padTo items n.toNat).take n.toNat else items
  | _ => items

/-- `set(target, key, val)` (observer/index.js lines 273–307).  Valid array
index: extend `length`, then delegate to `target.splice(key, 1, val)` —
for an observed array that call goes through the intercepted `mutator`
(which observes the inserted value and notifies); an unobserved array gets
the plain built-in, so nothing is observed or notified.  Key present on
the target and not an `Object.prototype` name (`key in target && !(key in
Object.prototype)`): plain assignment — on an array the present non-index
keys are the own `length` (whose write runs the platform's exotic length
update) and the inherited `Array.prototype` names (whose write makes an
own expando outside `items`).  `_isVue` target or root `$data` (`ob &&
ob.vmCount`): dev warning, value returned unchanged, nothing assigned,
instrumented or notified.  No `__ob__`: plain assignment without
reactivity.  Otherwise `defineReactive(ob.value, key, val)` and
`ob.dep.notify()`.  Every branch returns `val`. -/
def set (target : VTarget) (key : JSVal) (val : JSVal) : SetResult :=
  match target with
  | .arr items hasOb vmCount =>
      if isValidArrayIndex key then
        { target := .arr
            ((mutator .splice [JSVal.num (keyToNat key), JSVal.num 1, val]
                ⟨padTo items (max items.length (keyToNat key)), [], 0⟩).1.items)
            hasOb vmCount
          returned := val
          notified := hasOb
          definedReactive := none
          warned := false }
      else if (arrayProtoKeys.contains (jsPropKey key) ||
          objectProtoKeys.contains (jsPropKey key)) &&
          !objectProtoKeys.contains (jsPropKey key) then
        { target := .arr
            (if jsPropKey key = "length" then setArrayLength items val else items)
            hasOb vmCount
          returned := val
          notified := false
          definedReactive := none
          warned := false }
      -- arrays are never Vue instances, so `target._isVue` is undefined here
      else if hasOb && vmCount != 0 then
        { target := .arr items hasOb vmCount, returned := val
          notified := false, definedReactive := none, warned := true }
      else if !hasOb then
        { target := .arr items hasOb vmCount, returned := val, notified := false
          definedReactive := none, warned := false }
      else
        { target := .arr items hasOb vmCount, returned := val, notified := true
          definedReactive := some (jsPropKey key), warned := false }
  | .obj fields hasOb isVue vmCount =>
      if (hasOwnF fields (jsPropKey key) || objectProtoKeys.contains (jsPropKey key)) &&
          !objectProtoKeys.contains (jsPropKey key) then
        { target := .obj (setField fields (jsPropKey key) val) hasOb isVue vmCount
          returned := val
          notified := false
          definedReactive := none
          warned := false }
      else if isVue || (hasOb && vmCount != 0) then
        { target := .obj fields hasOb isVue vmCount, returned := val
          notified := false, definedReactive := none, warned := true }
      else if !hasOb then
        { target := .obj (setField fields (jsPropKey key) val) hasOb isVue vmCount
          returned := val
          notified := false
          definedReactive := none
          warned := false }
      else
        { target := .obj (setField fields (jsPropKey key) val) hasOb isVue vmCount
          returned := val
          notified := true
          definedReactive := some (jsPropKey key)
          warned := false }

/-!
## Keyed children reconciliation (`src/core/vdom/patch.js`, `updateChildren`)

The diff loop is embedded over vnodes carrying the `sameVnode`-relevant
fields plus the identity of their bound DOM element.  DOM side effects are
recorded as an operation trace: `patchVnode` calls, `insertBefore` moves,
`createElm` creations and `removeVnodes` removals.  The geometric
arguments of `insertBefore` (which sibling the element lands next to) are
DOM state outside this model; the trace records which element moved.
Index variables are integers, as in JS, since the end indices start at
`length - 1` (possibly `-1`) and are decremented past the start. -/
structure PVNode where
  core : VNodeL
  elm : Nat
deriving DecidableEq, Repr

/-- `sameVnode` on diffed children. -/
def sameVnodeP (a b : PVNode) : Bool := sameVnode a.core b.core

/-- The property-key string of a vnode's `key` (JS object keys are
strings, so `createKeyToOldIdx` keys the map on this). -/
def keyStr (o : PVNode) : String := jsPropKey o.core.key

/-- One recorded DOM-affecting operation of the diff. -/
inductive DiffOp where
  | patchOp : PVNode → PVNode → DiffOp
  | moveOp : PVNode → DiffOp
  | createOp : PVNode → DiffOp
  | removeOp : PVNode → DiffOp
deriving DecidableEq, Repr

/-- `oldCh[i]` — out-of-range and nulled-out slots both read as undefined. -/
def getO (l : List (Option PVNode)) (i : Int) : Option PVNode :=
  if h : 0 ≤ i ∧ i.toNat < l.length then l.get ⟨i.toNat, h.2⟩ else none

/-- `newCh[i]` (new children are never nulled; out of range is undefined). -/
def getN (l : List PVNode) (i : Int) : Option PVNode :=
  if h : 0 ≤ i ∧ i.toNat < l.length then some (l.get ⟨i.toNat, h.2⟩) else none

/-- `oldCh[idxInOld] = undefined` (patch.js: mark the moved node). -/
def setO (l : List (Option PVNode)) (i : Int) : List (Option PVNode) :=
  if 0 ≤ i then l.set i.toNat none else l

/-- The inclusive integer range `[a..b]` (empty when `b < a`). -/
def intRange (a b : Int) : List Int :=
  (List.range (b + 1 - a).toNat).map (fun (k : Nat) => a + (k : Int))

/-- Lookup in the key→index map object (first matching entry wins, like a
JS object whose writes overwrite in place). -/
def mapGet : List (String × Int) → String → Option Int
  | [], _ => none
  | p :: rest, k => if p.1 = k then some p.2 else mapGet rest k

/-- `map[key] = i` (later writes overwrite earlier ones). -/
def mapSet : List (String × Int) → String → Int → List (String × Int)
  | [], k, v => [(k, v)]
  | p :: rest, k, v => if p.1 = k then (k, v) :: rest else p :: mapSet rest k v

/-- One step of `createKeyToOldIdx`'s loop: record the key of a defined
vnode with a defined key. -/
def buildStep (oldCh : List (Option PVNode)) (m : List (String × Int)) (i : Int) :
    List (String × Int) :=
  match getO oldCh i with
  | some c => if isDefV c.core.key then mapSet m (keyStr c) i else m
  | none => m

/-- `createKeyToOldIdx(oldCh, beginIdx, endIdx)` (patch.js lines 82–92):
map each defined key in the range to its index. -/
def createKeyToOldIdx (oldCh : List (Option PVNode)) (b e : Int) :
    List (String × Int) :=
  (intRange b e).foldl (buildStep oldCh) []

/-- `findIdxInOld(node, oldCh, start, end)` (patch.js lines 968–973): first
index in `[start, end)` (note: `end` exclusive) holding a defined vnode
`sameVnode`-equal to `node` (`node` is the first argument of the
comparison). -/
def findIdxInOldL (node : PVNode) (oldCh : List (Option PVNode)) (b e : Int) :
    Option Int :=
  (intRange b (e - 1)).find? (fun i =>
    match getO oldCh i with
    | some c => sameVnodeP node c
    | none => false)

/-- The mutable state of the `updateChildren` loop: the (nullable) old
children array, the new children, the four cursor indices, the lazily
built key map, and the recorded operation trace. -/
structure UCState where
  oldCh : List (Option PVNode)
  newCh : List PVNode
  oldStartIdx : Int
  oldEndIdx : Int
  newStartIdx : Int
  newEndIdx : Int
  oldKeyToIdx : Option (List (String × Int))
  ops : List DiffOp
deriving DecidableEq, Repr

/-- The loop state `updateChildren` starts from. -/
def ucInit (oldCh newCh : List PVNode) : UCState :=
  { oldCh := oldCh.map some
    newCh := newCh
    oldStartIdx := 0
    oldEndIdx := (oldCh.length : Int) - 1
    newStartIdx := 0
    newEndIdx := (newCh.length : Int) - 1
    oldKeyToIdx := none
    ops := [] }

/-- One iteration of the `while` loop of `updateChildren` (patch.js lines
760–913): `none` when the guard `oldStartIdx <= oldEndIdx && newStartIdx
<= newEndIdx` fails (loop over); `some none` when the JS code would throw
(reading `.key` of an undefined vnode — reachable only through duplicate
keys); `some (some s')` to continue with the updated state.  `canMove` is
`!removeOnly`: when false (transition-group), the `insertBefore` moves are
suppressed while all patch/create bookkeeping still happens. -/
def ucStep (canMove : Bool) (s : UCState) : Option (Option UCState) :=
  if s.oldStartIdx ≤ s.oldEndIdx ∧ s.newStartIdx ≤ s.newEndIdx then
    some (
      match getO s.oldCh s.oldStartIdx with
      | none => some { s with oldStartIdx := s.oldStartIdx + 1 }
      | some oldStart =>
        match getO s.oldCh s.oldEndIdx with
        | none => some { s with oldEndIdx := s.oldEndIdx - 1 }
        | some oldEnd =>
          match getN s.newCh s.newStartIdx, getN s.newCh s.newEndIdx with
          | some newStart, some newEnd =>
            if sameVnodeP oldStart newStart then
              some { s with
                ops := s.ops ++ [.patchOp oldStart newStart]
                oldStartIdx := s.oldStartIdx + 1
                newStartIdx := s.newStartIdx + 1 }
            else if sameVnodeP oldEnd newEnd then
              some { s with
                ops := s.ops ++ [.patchOp oldEnd newEnd]
                oldEndIdx := s.oldEndIdx - 1
                newEndIdx := s.newEndIdx - 1 }
            else if sameVnodeP oldStart newEnd then
              some { s with
                ops := s.ops ++ [.patchOp oldStart newEnd] ++
                  (if canMove then [.moveOp oldStart] else [])
                oldStartIdx := s.oldStartIdx + 1
                newEndIdx := s.newEndIdx - 1 }
            else if sameVnodeP oldEnd newStart then
              some { s with
                ops := s.ops ++ [.patchOp oldEnd newStart] ++
                  (if canMove then [.moveOp oldEnd] else [])
                oldEndIdx := s.oldEndIdx - 1
                newStartIdx := s.newStartIdx + 1 }
            else
              match (s.oldKeyToIdx.getD
                  (createKeyToOldIdx s.oldCh s.oldStartIdx s.oldEndIdx)),
                (if isDefV newStart.core.key then
                  mapGet (s.oldKeyToIdx.getD
                    (createKeyToOldIdx s.oldCh s.oldStartIdx s.oldEndIdx))
                    (keyStr newStart)
                else
                  findIdxInOldL newStart s.oldCh s.oldStartIdx s.oldEndIdx) with
              | m, none =>
                some { s with
                  oldKeyToIdx := some m
                  ops := s.ops ++ [.createOp newStart]
                  newStartIdx := s.newStartIdx + 1 }
              | m, some idx =>
                match getO s.oldCh idx with
                | none => none
                | some vtm =>
                  if sameVnodeP vtm newStart then
                    some { s with
                      oldKeyToIdx := some m
                      oldCh := setO s.oldCh idx
                      ops := s.ops ++ [.patchOp vtm newStart] ++
                        (if canMove then [.moveOp vtm] else [])
                      newStartIdx := s.newStartIdx + 1 }
                  else
                    some { s with
                      oldKeyToIdx := some m
                      ops := s.ops ++ [.createOp newStart]
                      newStartIdx := s.newStartIdx + 1 }
          | _, _ => none
      )
  else none

/-- Loop outcome: finished normally, JS exception, or fuel exhausted (the
latter is a totality device only). -/
inductive LoopOut where
  | done : UCState → LoopOut
  | crash : LoopOut
  | fuelOut : LoopOut
deriving DecidableEq, Repr

/-- The `while` loop of `updateChildren`, driven by `ucStep`. -/
def ucLoop (canMove : Bool) : Nat → UCState → LoopOut
  | 0, _ => .fuelOut
  | fuel + 1, s =>
      match ucStep canMove s with
      | none => .done s
      | some none => .crash
      | some (some s') => ucLoop canMove fuel s'

/-- `addVnodes(parentElm, refElm, newCh, newStartIdx, newEndIdx, ...)`
(patch.js lines 591–610) as recorded operations: create every remaining
new child. -/
def ucCreates (s : UCState) : List DiffOp :=
  (intRange s.newStartIdx s.newEndIdx).filterMap
    (fun i => (getN s.newCh i).map DiffOp.createOp)

/-- `removeVnodes(oldCh, oldStartIdx, oldEndIdx)` (patch.js lines 644–657)
as recorded operations: remove every remaining *defined* old child
(nulled-out slots are skipped by its `isDef` check). -/
def ucRemoves (s : UCState) : List DiffOp :=
  (intRange s.oldStartIdx s.oldEndIdx).filterMap
    (fun i => (getO s.oldCh i).map DiffOp.removeOp)

/-- The after-loop phase of `updateChildren` (patch.js lines 915–936):
old range exhausted → bulk-insert remaining new children; new range
exhausted → bulk-remove remaining old children. -/
def postPhase (s : UCState) : UCState :=
  if s.oldEndIdx < s.oldStartIdx then { s with ops := s.ops ++ ucCreates s }
  else if s.newEndIdx < s.newStartIdx then { s with ops := s.ops ++ ucRemoves s }
  else s

/-- `updateChildren(parentElm, oldCh, newCh, insertedVnodeQueue,
removeOnly)` (patch.js lines 705–936), as the operation trace it produces.
(The dev-only `checkDuplicateKeys` emits a warning and changes no state.) -/
def updateChildren (canMove : Bool) (fuel : Nat) (oldCh newCh : List PVNode) :
    LoopOut :=
  match ucLoop canMove fuel (ucInit oldCh newCh) with
  | .done s => .done (postPhase s)
  | .crash => .crash
  | .fuelOut => .fuelOut

/-- The loop measure: total size of the two index ranges. -/
def ucMeasure (s : UCState) : Nat :=
  (s.oldEndIdx + 1 - s.oldStartIdx).toNat + (s.newEndIdx + 1 - s.newStartIdx).toNat

/-- The defined entries of a nullable children array within `[a..b]`. -/
def activeO (oldCh : List (Option PVNode)) (a b : Int) : List PVNode :=
  (intRange a b).filterMap (fun i => getO oldCh i)

/-- The entries of a children array within `[a..b]`. -/
def activeN (newCh : List PVNode) (a b : Int) : List PVNode :=
  (intRange a b).filterMap (fun i => getN newCh i)

/-- The defined old children still inside the active old range. -/
def activeOld (s : UCState) : List PVNode :=
  activeO s.oldCh s.oldStartIdx s.oldEndIdx

/-- The new children still inside the active new range. -/
def activeNew (s : UCState) : List PVNode :=
  activeN s.newCh s.newStartIdx s.newEndIdx

/-- The loop invariant for the keyed-permutation scenario (claim C8):
`olds`/`news` are the original children.  The fields state that the new
children are untouched, the old array is the original with some slots
nulled, the cursors stay in range, the active sides remain key-permutations
of each other with duplicate-free keys, the trace holds no create/remove
and pairs old nodes with key-equal new nodes, every old node is either
already patched or still active, and the lazily built key map sends every
defined in-range entry to its index. -/
structure UCInv (olds news : List PVNode) (s : UCState) : Prop where
  hnew : s.newCh = news
  holdlen : s.oldCh.length = olds.length
  hold : ∀ i : Int, getO s.oldCh i = none ∨ getO s.oldCh i = getN olds i
  hb1 : 0 ≤ s.oldStartIdx
  hb2 : s.oldEndIdx < (olds.length : Int)
  hb3 : 0 ≤ s.newStartIdx
  hb4 : s.newEndIdx < (news.length : Int)
  hperm : ((activeNew s).map keyStr).Perm ((activeOld s).map keyStr)
  hadup : ((activeOld s).map keyStr).Nodup
  hops : ∀ op ∈ s.ops, (∀ n, op ≠ .createOp n) ∧ (∀ o, op ≠ .removeOp o)
  hpairs : ∀ o n, DiffOp.patchOp o n ∈ s.ops → o ∈ olds ∧ n ∈ news ∧ keyStr o = keyStr n
  hreuse : ∀ o ∈ olds, (∃ n ∈ news, DiffOp.patchOp o n ∈ s.ops) ∨ o ∈ activeOld s
  hmap : ∀ m, s.oldKeyToIdx = some m →
    ∀ i o, s.oldStartIdx ≤ i → i ≤ s.oldEndIdx → getO s.oldCh i = some o →
      mapGet m (keyStr o) = some i

/-- A concrete keyed child for evaluating the diff: key `toString k`, a
plain `li` element vnode. -/
def demoNode (k : Nat) : PVNode :=
  { core :=
      { key := .str (toString k)
        asyncFactory := none
        tag := .str "li"
        isComment := false
        data := some { attrs := none }
        isAsyncPlaceholder := false }
    elm := k }

/-- The spec's keyed-reorder example, old side: keys 1, 2, 3. -/
def demoOld : List PVNode := [demoNode 1, demoNode 2, demoNode 3]

/-- The spec's keyed-reorder example, new side: keys 3, 1, 2. -/
def demoNew : List PVNode := [demoNode 3, demoNode 1, demoNode 2]

/-! ## Theorems -/

lemma addDep_deps_eq (s : WState) (id : Nat) :
    (addDep s id).deps = s.deps ∧ (addDep s id).depIds = s.depIds := by
  unfold addDep
  split <;> [skip; split] <;> simp

lemma addDep_newDepIds_mem (s : WState) (id d : Nat) :
    d ∈ (addDep s id).newDepIds ↔ d ∈ s.newDepIds ∨ d = id := by
  unfold addDep
  split
  · rename_i h
    constructor
    · exact Or.inl
    · rintro (hd | rfl) <;> [exact hd; exact h]
  · split <;> simp

lemma addDep_midInv (s : WState) (id : Nat) (h : MidRunInv s) :
    MidRunInv (addDep s id) := by
  obtain ⟨h1, h2, h3, h4, h5, h6⟩ := h
  unfold addDep
  split
  · exact ⟨h1, h2, h3, h4, h5, h6⟩
  · rename_i hnew
    split
    · rename_i hold
      refine ⟨?_, ?_, h3, h4, h5, ?_⟩
      · simp [List.nodup_append, h1, hnew]
      · simp [h2]
      · intro d
        rw [h6 d]
        constructor
        · rintro (hd | ⟨hd, hnd⟩)
          · exact Or.inl hd
          · exact Or.inr ⟨by simp [hd], hnd⟩
        · rintro (hd | ⟨hd, hnd⟩)
          · exact Or.inl hd
          · rcases (by simpa using hd : d ∈ s.newDepIds ∨ d = id) with h' | rfl
            · exact Or.inr ⟨h', hnd⟩
            · exact absurd (h3 ▸ hold) (h3 ▸ hnd)
    · rename_i hold
      refine ⟨?_, ?_, h3, h4, ?_, ?_⟩
      · simp [List.nodup_append, h1, hnew]
      · simp [h2]
      · have : id ∉ s.subs := by
          rw [h6 id]
          rintro (hd | ⟨hd, _⟩)
          · exact hold (h3 ▸ hd)
          · exact hnew hd
        simp [List.nodup_append, h5, this]
      · intro d
        simp only [List.mem_append, List.mem_singleton, h6 d]
        constructor
        · rintro ((hd | ⟨hd, hnd⟩) | rfl)
          · exact Or.inl hd
          · exact Or.inr ⟨Or.inl hd, hnd⟩
          · exact Or.inr ⟨Or.inr rfl, hold⟩
        · rintro (hd | ⟨hd | rfl, hnd⟩)
          · exact Or.inl (Or.inl hd)
          · exact Or.inl (Or.inr ⟨hd, hnd⟩)
          · exact Or.inr rfl

lemma foldl_addDep_spec (reads : List Nat) (s : WState) (h : MidRunInv s) :
    MidRunInv (reads.foldl addDep s) ∧
      (reads.foldl addDep s).deps = s.deps ∧
      (reads.foldl addDep s).depIds = s.depIds ∧
      ∀ d, d ∈ (reads.foldl addDep s).newDepIds ↔ d ∈ s.newDepIds ∨ d ∈ reads := by
  induction reads generalizing s with
  | nil => simpa using h
  | cons r rest ih =>
    obtain ⟨ih1, ih2, ih3, ih4⟩ := ih (addDep s r) (addDep_midInv s r h)
    refine ⟨ih1, ?_, ?_, ?_⟩
    · rw [List.foldl_cons, ih2, (addDep_deps_eq s r).1]
    · rw [List.foldl_cons, ih3, (addDep_deps_eq s r).2]
    · intro d
      rw [List.foldl_cons, ih4 d, addDep_newDepIds_mem]
      constructor
      · rintro ((hd | rfl) | hd)
        · exact Or.inl hd
        · exact Or.inr (List.mem_cons_self _ _)
        · exact Or.inr (List.mem_cons_of_mem _ hd)
      · rintro (hd | hd)
        · exact Or.inl (Or.inl hd)
        · rcases List.mem_cons.mp hd with rfl | hd
          · exact Or.inl (Or.inr rfl)
          · exact Or.inr hd

lemma foldr_removeSub_spec (nIds : List Nat) (l : List Nat) (subs : List Nat)
    (hs : subs.Nodup) :
    (l.foldr (fun d acc => if d ∈ nIds then acc else acc.erase d) subs).Nodup ∧
      ∀ e, e ∈ l.foldr (fun d acc => if d ∈ nIds then acc else acc.erase d) subs ↔
        e ∈ subs ∧ (e ∈ l → e ∈ nIds) := by
  induction l with
  | nil => simpa using hs
  | cons d rest ih =>
    obtain ⟨ih1, ih2⟩ := ih
    simp only [List.foldr_cons]
    split
    · rename_i hd
      refine ⟨ih1, fun e => ?_⟩
      rw [ih2 e]
      constructor
      · rintro ⟨he, hcond⟩
        refine ⟨he, fun hm => ?_⟩
        rcases List.mem_cons.mp hm with rfl | hm
        · exact hd
        · exact hcond hm
      · rintro ⟨he, hcond⟩
        exact ⟨he, fun hm => hcond (List.mem_cons_of_mem _ hm)⟩
    · rename_i hd
      refine ⟨ih1.erase d, fun e => ?_⟩
      rw [ih1.mem_erase_iff, ih2 e]
      constructor
      · rintro ⟨hne, he, hcond⟩
        refine ⟨he, fun hm => ?_⟩
        rcases List.mem_cons.mp hm with rfl | hm
        · exact absurd rfl hne
        · exact hcond hm
      · rintro ⟨he, hcond⟩
        have hne : e ≠ d := by
          rintro rfl
          exact hd (hcond (List.mem_cons_self _ _))
        exact ⟨hne, he, fun hm => hcond (List.mem_cons_of_mem _ hm)⟩

lemma queueWatcher_noop (s : Sched) (id : Nat) (h : id ∈ s.has) :
    queueWatcher s id = s := by
  unfold queueWatcher
  rw [if_pos h]

lemma queueWatcher_mem_has (s : Sched) (id : Nat) :
    id ∈ (queueWatcher s id).has := by
  unfold queueWatcher
  split
  · assumption
  · split <;> simp

lemma queueWatcher_queue_cases (s : Sched) (id : Nat) :
    (queueWatcher s id).queue = s.queue ∨
      ((queueWatcher s id).queue.Perm (id :: s.queue) ∧ id ∉ s.has) := by
  unfold queueWatcher
  split
  · exact Or.inl rfl
  · rename_i h
    split
    · refine Or.inr ⟨?_, h⟩
      simpa [spliceIns] using
        (List.perm_middle.trans (by rw [List.take_append_drop]))
    · refine Or.inr ⟨?_, h⟩
      simp only []
      exact List.perm_append_singleton id s.queue

lemma queueWatcher_preserves (s : Sched) (id : Nat) :
    (queueWatcher s id).circular = s.circular ∧
      (queueWatcher s id).flushing = s.flushing ∧
      (queueWatcher s id).index = s.index ∧
      (queueWatcher s id).ran = s.ran ∧
      (queueWatcher s id).aborted = s.aborted ∧
      (queueWatcher s id).warned = s.warned := by
  unfold queueWatcher
  split <;> [skip; split] <;> simp

lemma queueWatcher_has_sub (s : Sched) (id j : Nat) (h : j ∈ s.has) :
    j ∈ (queueWatcher s id).has := by
  unfold queueWatcher
  split <;> [skip; split] <;> simp [h]

lemma queueWatcher_has_nodup (s : Sched) (id : Nat) (h : s.has.Nodup) :
    (queueWatcher s id).has.Nodup := by
  unfold queueWatcher
  split
  · exact h
  · rename_i hmem
    split <;> simpa [List.nodup_append, hmem] using h

lemma foldl_queueWatcher_preserves (l : List Nat) (s : Sched) :
    (l.foldl queueWatcher s).circular = s.circular ∧
      (l.foldl queueWatcher s).flushing = s.flushing ∧
      (l.foldl queueWatcher s).index = s.index ∧
      (l.foldl queueWatcher s).ran = s.ran ∧
      (l.foldl queueWatcher s).aborted = s.aborted := by
  induction l generalizing s with
  | nil => simp
  | cons a rest ih =>
    obtain ⟨i1, i2, i3, i4, i5⟩ := ih (queueWatcher s a)
    obtain ⟨q1, q2, q3, q4, q5, _⟩ := queueWatcher_preserves s a
    exact ⟨i1.trans q1, i2.trans q2, i3.trans q3, i4.trans q4, i5.trans q5⟩

lemma spliceIns_length (l : List Nat) (i a : Nat) :
    (spliceIns l i a).length = l.length + 1 := by
  simp only [spliceIns, List.length_append, List.length_cons, List.length_take,
    List.length_drop]
  omega

lemma flushLoop_no_requeue (dev : Bool) (fuel : Nat) (s : Sched)
    (hnodup : s.has.Nodup) (hfuel : s.queue.length - s.index < fuel) :
    ∃ r, flushLoopO dev (fun _ => []) fuel s = some r ∧
      r.ran = s.ran ++ s.queue.drop s.index := by
  induction fuel generalizing s with
  | zero => omega
  | succ fuel ih =>
    by_cases hidx : s.index < s.queue.length
    · have hw : s.queue.getD s.index 0 ∉ (flushStepState (fun _ => []) s).has := by
        simpa [flushStepState] using hnodup.not_mem_erase
      have hstep : flushLoopO dev (fun _ => []) (fuel + 1) s =
          flushLoopO dev (fun _ => []) fuel
            { flushStepState (fun _ => []) s with index := s.index + 1 } := by
        simp only [flushLoopO, if_pos hidx]
        rw [if_neg (by simp only [not_and]; intro _; simpa using hw)]
      obtain ⟨r, hr, hran⟩ := ih { flushStepState (fun _ => []) s with index := s.index + 1 }
        (by simpa [flushStepState] using hnodup.erase _)
        (by simp only [flushStepState]; simp; omega)
      refine ⟨r, hstep ▸ hr, ?_⟩
      rw [hran]
      simp only [flushStepState]
      rw [List.drop_eq_getElem_cons hidx, List.getD_eq_getElem _ _ hidx]
      simp
    · refine ⟨s, by simp only [flushLoopO, if_neg hidx], ?_⟩
      rw [List.drop_eq_nil_of_le (by omega)]
      simp

lemma spliceLoop_le (q : List Nat) (idx id : Nat) : ∀ i, spliceLoop q idx id i ≤ i := by
  intro i
  induction i with
  | zero => simp [spliceLoop]
  | succ j ih =>
    rw [spliceLoop]
    split
    · exact ih.trans (Nat.le_succ j)
    · exact le_refl _

lemma spliceLoop_ge (q : List Nat) (idx id : Nat) :
    ∀ i, idx ≤ i → idx ≤ spliceLoop q idx id i := by
  intro i
  induction i with
  | zero => intro h; simpa [spliceLoop] using h
  | succ j ih =>
    intro _
    rw [spliceLoop]
    split
    · rename_i hc
      exact ih (Nat.lt_succ_iff.mp hc.1)
    · omega

lemma spliceLoop_after (q : List Nat) (idx id : Nat) :
    ∀ i j, spliceLoop q idx id i < j → j ≤ i → id < q.getD j 0 := by
  intro i
  induction i with
  | zero => intro j h1 h2; omega
  | succ k ih =>
    intro j h1 h2
    rw [spliceLoop] at h1
    split at h1
    · rename_i hc
      rcases Nat.lt_succ_iff_lt_or_eq.mp (Nat.lt_succ_of_le h2) with hj | rfl
      · exact ih j h1 (by omega)
      · exact hc.2
    · omega

lemma spliceLoop_stop (q : List Nat) (idx id : Nat) :
    ∀ i, spliceLoop q idx id i ≤ idx ∨ q.getD (spliceLoop q idx id i) 0 ≤ id := by
  intro i
  induction i with
  | zero => left; simp [spliceLoop]
  | succ j ih =>
    rw [spliceLoop]
    split
    · exact ih
    · rename_i hc
      rcases Decidable.not_and_iff_or_not.mp hc with h | h
      · left; omega
      · right; omega

/-- **C2.** Deduplication in `queueWatcher` and its consequence for
batching.  Part 1: `queueWatcher` is a no-op when the id is present in
`has`.  Part 2: it preserves the invariant that the queue is
duplicate-free and covered by the presence set, so an id occurs at most
once in the queue at any instant.  Part 3: `n + 1` back-to-back
notifications of the same watcher have exactly the effect of one.
Part 4: a flush runs exactly the queued watchers in queue order (each
once), so after `n` same-id notifications the watcher re-runs once, not
`n` times.  Part 5: the concrete count — enqueueing an absent id `n + 1`
times leaves exactly one copy in the queue. -/
theorem queueWatcher_dedup_batching :
    (∀ s id, id ∈ s.has → queueWatcher s id = s) ∧
    (∀ s id, s.queue.Nodup → (∀ j, j ∈ s.queue → j ∈ s.has) →
      (queueWatcher s id).queue.Nodup ∧
        ∀ j, j ∈ (queueWatcher s id).queue → j ∈ (queueWatcher s id).has) ∧
    (∀ s id n, (List.replicate (n + 1) id).foldl queueWatcher s = queueWatcher s id) ∧
    (∀ s fuel dev, s.has.Nodup → s.queue.length - s.index < fuel →
      ∃ r, flushLoopO dev (fun _ => []) fuel s = some r ∧
        r.ran = s.ran ++ s.queue.drop s.index) ∧
    (∀ s id n, id ∉ s.has → s.flushing = false → s.queue.Nodup →
      (∀ j, j ∈ s.queue → j ∈ s.has) →
      ((List.replicate (n + 1) id).foldl queueWatcher s).queue.count id = 1) := by
  have noop : ∀ s id, id ∈ s.has → queueWatcher s id = s := queueWatcher_noop
  have inv : ∀ s id, s.queue.Nodup → (∀ j, j ∈ s.queue → j ∈ s.has) →
      (queueWatcher s id).queue.Nodup ∧
        ∀ j, j ∈ (queueWatcher s id).queue → j ∈ (queueWatcher s id).has := by
    intro s id hnd hsub
    rcases queueWatcher_queue_cases s id with hq | ⟨hq, hid⟩
    · rw [hq]
      exact ⟨hnd, fun j hj => queueWatcher_has_sub s id j (hsub j hj)⟩
    · constructor
      · rw [hq.nodup_iff]
        exact List.nodup_cons.mpr ⟨fun hc => hid (hsub id hc), hnd⟩
      · intro j hj
        rcases List.mem_cons.mp (hq.mem_iff.mp hj) with rfl | hj
        · exact queueWatcher_mem_has s j
        · exact queueWatcher_has_sub s id j (hsub j hj)
  have once : ∀ s id n, (List.replicate (n + 1) id).foldl queueWatcher s = queueWatcher s id := by
    intro s id n
    rw [List.replicate_succ, List.foldl_cons]
    induction n with
    | zero => simp
    | succ m ih =>
      rw [List.replicate_succ, List.foldl_cons,
        noop (queueWatcher s id) id (queueWatcher_mem_has s id)]
      exact ih
  refine ⟨noop, inv, once, fun s fuel dev h1 h2 => flushLoop_no_requeue dev fuel s h1 h2,
    ?_⟩
  intro s id n hid hfl hnd hsub
  rw [once]
  have hqueue : (queueWatcher s id).queue = s.queue ++ [id] := by
    unfold queueWatcher
    rw [if_neg hid, if_neg (by simp [hfl])]
  rw [hqueue, List.count_append]
  have : s.queue.count id = 0 := by
    rw [List.count_eq_zero]
    exact fun hc => hid (hsub id hc)
  simp [this]

/-- Witness for C2: a scheduler whose presence set already holds id `5`
ignores a duplicate enqueue; enqueueing id `4` three times into an idle
scheduler with queue `[7]` (7 pending, 4 absent) yields a duplicate-free
queue containing `4` exactly once, and flushing runs `[7, 4]` — one re-run
of watcher 4. -/
theorem queueWatcher_dedup_batching_witness :
    (queueWatcher ⟨[7], [5, 7], [], true, false, 0, [], none, false⟩ 5 =
      ⟨[7], [5, 7], [], true, false, 0, [], none, false⟩) ∧
    (∃ r, flushLoopO false (fun _ => []) 3
        ((List.replicate 3 4).foldl queueWatcher
          ⟨[7], [7], [], true, false, 0, [], none, false⟩) = some r ∧
      r.ran = [] ++ [7, 4].drop 0) ∧
    ((List.replicate 3 4).foldl queueWatcher
        ⟨[7], [7], [], true, false, 0, [], none, false⟩).queue.count 4 = 1 := by
  refine ⟨queueWatcher_dedup_batching.1 _ 5 (by decide), ?_, ?_⟩
  · have h := queueWatcher_dedup_batching.2.2.2.1
      ((List.replicate 3 4).foldl queueWatcher
        ⟨[7], [7], [], true, false, 0, [], none, false⟩) 3 false (by decide) (by decide)
    simpa using h
  · exact queueWatcher_dedup_batching.2.2.2.2 _ 4 2 (by decide) (by decide) (by decide)
      (by decide)

/-- **C3.** Flush ordering.  Part 1: `flushSchedulerQueue` starts by
sorting the queue ascending by watcher id (`flushInit` produces a sorted
permutation of the pending queue) and iterates from index 0.  Part 2: a
watcher enqueued while a flush is in progress is spliced in at a position
`p` strictly after the current cursor (`index < p`, entries up to the
cursor untouched), at its id-sorted place among the not-yet-visited
entries: every pending entry before the insertion point has id `≤` the new
one and every entry after it has id `>` the new one — so the new watcher
runs later within the same flush and is never inserted at or before the
cursor. -/
theorem flush_sorts_and_splices_after_cursor :
    (∀ s, (flushInit s).queue.Sorted (· ≤ ·) ∧ (flushInit s).queue.Perm s.queue ∧
      (flushInit s).index = 0 ∧ (flushInit s).flushing = true) ∧
    (∀ s id, s.flushing = true → id ∉ s.has → s.index < s.queue.length →
      s.queue.Sorted (· ≤ ·) →
      ∃ p, s.index < p ∧ p ≤ s.queue.length ∧
        (queueWatcher s id).queue = s.queue.take p ++ id :: s.queue.drop p ∧
        (∀ j, s.index < j → j < p → s.queue.getD j 0 ≤ id) ∧
        (∀ j, p ≤ j → j < s.queue.length → id < s.queue.getD j 0)) := by
  constructor
  · intro s
    refine ⟨List.sorted_mergeSort' s.queue, List.mergeSort_perm s.queue _, rfl, rfl⟩
  · intro s id hfl hid hidx hsort
    set r := spliceLoop s.queue s.index id (s.queue.length - 1) with hr
    have hrge : s.index ≤ r := spliceLoop_ge _ _ _ _ (by omega)
    have hrle : r ≤ s.queue.length - 1 := spliceLoop_le _ _ _ _
    refine ⟨r + 1, by omega, by omega, ?_, ?_, ?_⟩
    · unfold queueWatcher
      rw [if_neg hid, if_pos hfl]
      rfl
    · intro j hj1 hj2
      have hjr : j ≤ r := by omega
      rcases spliceLoop_stop s.queue s.index id (s.queue.length - 1) with hstop | hstop
      · omega
      · rw [← hr] at hstop
        rcases eq_or_lt_of_le hjr with rfl | hjlt
        · exact hstop
        · refine le_trans ?_ hstop
          have hjlen : j < s.queue.length := by omega
          have hrlen : r < s.queue.length := by omega
          rw [List.getD_eq_getElem _ _ hjlen, List.getD_eq_getElem _ _ hrlen]
          exact hsort.rel_get_of_lt (a := ⟨j, hjlen⟩) (b := ⟨r, hrlen⟩) hjlt
    · intro j hj1 hj2
      exact spliceLoop_after s.queue s.index id (s.queue.length - 1) j (by omega) (by omega)

/-- Witness for C3: sorting the pending queue `[9, 3, 5]`, and splicing id
`4` into the in-flush sorted queue `[3, 5, 9]` with the cursor at 0 (entry
`3` already running). -/
theorem flush_sorts_and_splices_after_cursor_witness :
    ((flushInit ⟨[9, 3, 5], [3, 5, 9], [], true, false, 0, [], none, false⟩).queue.Sorted (· ≤ ·) ∧
      (flushInit ⟨[9, 3, 5], [3, 5, 9], [], true, false, 0, [], none, false⟩).queue.Perm [9, 3, 5] ∧
      (flushInit ⟨[9, 3, 5], [3, 5, 9], [], true, false, 0, [], none, false⟩).index = 0 ∧
      (flushInit ⟨[9, 3, 5], [3, 5, 9], [], true, false, 0, [], none, false⟩).flushing = true) ∧
    (∃ p, 0 < p ∧ p ≤ 3 ∧
      (queueWatcher ⟨[3, 5, 9], [3, 5, 9], [], true, true, 0, [], none, false⟩ 4).queue =
        [3, 5, 9].take p ++ 4 :: [3, 5, 9].drop p ∧
      (∀ j, 0 < j → j < p → [3, 5, 9].getD j 0 ≤ 4) ∧
      (∀ j, p ≤ j → j < 3 → 4 < [3, 5, 9].getD j 0)) := by
  refine ⟨flush_sorts_and_splices_after_cursor.1 _, ?_⟩
  exact flush_sorts_and_splices_after_cursor.2
    ⟨[3, 5, 9], [3, 5, 9], [], true, true, 0, [], none, false⟩ 4
    (by decide) (by decide) (by decide) (by decide)

lemma queueWatcher_queue_len (s : Sched) (id : Nat) (h1 : id ∉ s.has) :
    (queueWatcher s id).queue.length = s.queue.length + 1 := by
  unfold queueWatcher
  rw [if_neg h1]
  split
  · simp [spliceIns_length]
  · simp

lemma flushLoopO_mono (dev : Bool) (enq : Nat → List Nat) :
    ∀ fuel s r, flushLoopO dev enq fuel s = some r →
      flushLoopO dev enq (fuel + 1) s = some r := by
  intro fuel
  induction fuel with
  | zero => intro s r h; simp [flushLoopO] at h
  | succ f ih =>
    intro s r h
    rw [flushLoopO] at h
    rw [flushLoopO]
    by_cases h1 : s.index < s.queue.length
    · rw [if_pos h1] at h ⊢
      by_cases h2 : dev = true ∧ s.queue.getD s.index 0 ∈ (flushStepState enq s).has
      · rw [if_pos h2] at h ⊢
        by_cases h3 : MAX_UPDATE_COUNT <
            circGet (flushStepState enq s).circular (s.queue.getD s.index 0) + 1
        · rwa [if_pos h3] at h ⊢
        · rw [if_neg h3] at h ⊢
          exact ih _ _ h
      · rw [if_neg h2] at h ⊢
        exact ih _ _ h
    · rwa [if_neg h1] at h ⊢

lemma flushLoopO_mono_le (dev : Bool) (enq : Nat → List Nat) {fuel fuel' : Nat}
    {s r : Sched} (hle : fuel ≤ fuel')
    (h : flushLoopO dev enq fuel s = some r) :
    flushLoopO dev enq fuel' s = some r := by
  induction fuel', hle using Nat.le_induction with
  | base => exact h
  | succ n hn ih => exact flushLoopO_mono dev enq n s r ih

lemma getD_replicate (n k a d : Nat) (h : k < n) :
    (List.replicate n a).getD k d = a := by
  rw [List.getD_eq_getElem _ _ (by simpa using h)]
  simp

lemma spliceLoop_at_index (q : List Nat) (idx id : Nat) :
    spliceLoop q idx id idx = idx := by
  cases idx <;> simp [spliceLoop]

lemma flushStep_selfState (k : Nat) :
    flushStepState selfRequeue (selfState k) =
      { queue := List.replicate (k + 2) 1
        has := [1]
        circular := if k = 0 then [] else [(1, k)]
        waiting := true
        flushing := true
        index := k
        ran := List.replicate (k + 1) 1
        warned := none
        aborted := false } := by
  have hget : (List.replicate (k + 1) (1 : Nat)).getD k 0 = 1 :=
    getD_replicate _ _ _ _ (by omega)
  unfold flushStepState selfState
  simp only [hget, selfRequeue, List.foldl_cons, List.foldl_nil]
  unfold queueWatcher
  simp only [List.erase_cons_head, List.not_mem_nil, if_neg, if_pos,
    List.length_replicate]
  have hsplice : spliceLoop (List.replicate (k + 1) 1) k 1 (k + 1 - 1) = k := by
    simpa using spliceLoop_at_index (List.replicate (k + 1) 1) k 1
  rw [hsplice]
  have hins : spliceIns (List.replicate (k + 1) 1) (k + 1) 1 =
      List.replicate (k + 2) 1 := by
    simp only [spliceIns, List.take_replicate, List.drop_replicate,
      Nat.min_self, Nat.sub_self, List.replicate_zero]
    rw [show k + 2 = (k + 1) + 1 from rfl, List.replicate_succ' (k + 1) 1]
  rw [hins]
  simp [← List.replicate_succ' k 1]

lemma selfState_step (k : Nat) (hk : k < 100) (fuel : Nat) :
    flushLoopO true selfRequeue (fuel + 1) (selfState k) =
      flushLoopO true selfRequeue fuel (selfState (k + 1)) := by
  have hget : (selfState k).queue.getD (selfState k).index 0 = 1 := by
    simp only [selfState]
    exact getD_replicate _ _ _ _ (by omega)
  have hcirc : circGet (if k = 0 then [] else [(1, k)]) 1 = k := by
    rcases Nat.eq_zero_or_pos k with rfl | hpos
    · simp [circGet]
    · rw [if_neg (by omega)]
      simp [circGet]
  rw [flushLoopO]
  rw [if_pos (by simp [selfState])]
  rw [hget, flushStep_selfState k]
  rw [if_pos ⟨rfl, by simp⟩]
  rw [if_neg (by simp only [hcirc, MAX_UPDATE_COUNT]; omega)]
  congr 1
  have hset : circSet (if k = 0 then [] else [(1, k)]) 1 (k + 1) = [(1, k + 1)] := by
    rcases Nat.eq_zero_or_pos k with rfl | hpos
    · simp [circSet]
    · rw [if_neg (by omega)]
      simp [circSet]
  simp [bumpCircular, selfState, hcirc, hset]

lemma selfState_break (fuel : Nat) :
    flushLoopO true selfRequeue (fuel + 1) (selfState 100) =
      some ⟨List.replicate 102 1, [1], [(1, 101)], true, true, 100,
            List.replicate 101 1, some 1, true⟩ := by
  have hget : (selfState 100).queue.getD (selfState 100).index 0 = 1 := by
    simp only [selfState]
    exact getD_replicate _ _ _ _ (by omega)
  rw [flushLoopO]
  rw [if_pos (by simp [selfState])]
  rw [hget, flushStep_selfState 100]
  rw [if_pos ⟨rfl, by simp⟩]
  rw [if_pos (by simp [circGet, MAX_UPDATE_COUNT])]
  simp [bumpCircular, circGet, circSet]

lemma selfState_chain (m : Nat) :
    ∀ k fuel, k + m = 100 → m < fuel →
      flushLoopO true selfRequeue fuel (selfState k) =
        some ⟨List.replicate 102 1, [1], [(1, 101)], true, true, 100,
              List.replicate 101 1, some 1, true⟩ := by
  induction m with
  | zero =>
    intro k fuel hk hfuel
    obtain rfl : k = 100 := by omega
    obtain ⟨f, rfl⟩ : ∃ f, fuel = f + 1 := ⟨fuel - 1, by omega⟩
    exact selfState_break f
  | succ m ih =>
    intro k fuel hk hfuel
    obtain ⟨f, rfl⟩ : ∃ f, fuel = f + 1 := ⟨fuel - 1, by omega⟩
    rw [selfState_step k (by omega) f]
    exact ih (k + 1) f (by omega) (by omega)

/-- **C6.** The dev-build infinite-update-loop safety valve.  Part 1 (the
mechanism, for any state and watcher behaviour): when the watcher at the
cursor is back in the presence set right after its own run and its bumped
re-entry counter exceeds `MAX_UPDATE_COUNT = 100`, the flush loop stops at
once — the result is the post-`break` state, whose `warned` field
identifies the offending watcher, whose cursor still points at the
offender, and whose later queue entries were never run.  Part 2 (the
scenario): a watcher (id 1) that synchronously re-queues itself on every
run makes the flush loop abort, for every sufficient fuel bound, after
running 101 times (counter 101 > 100), with the diagnostic naming it —
the remaining queue entries (cursor 100, queue length 102) are not run,
and the loop does not hang. -/
theorem flush_infinite_update_guard :
    (∀ enq fuel s, s.index < s.queue.length →
      s.queue.getD s.index 0 ∈ (flushStepState enq s).has →
      MAX_UPDATE_COUNT <
        circGet (flushStepState enq s).circular (s.queue.getD s.index 0) + 1 →
      flushLoopO true enq (fuel + 1) s =
        some { bumpCircular (flushStepState enq s) (s.queue.getD s.index 0) with
               aborted := true
               warned := some (s.queue.getD s.index 0) }) ∧
    (∀ fuel, 102 ≤ fuel →
      flushLoopO true selfRequeue fuel ⟨[1], [1], [], false, true, 0, [], none, false⟩ =
        some ⟨List.replicate 102 1, [1], [(1, 101)], true, true, 100,
              List.replicate 101 1, some 1, true⟩) := by
  constructor
  · intro enq fuel s h1 h2 h3
    rw [flushLoopO, if_pos h1, if_pos ⟨rfl, h2⟩, if_pos h3]
  · intro fuel hfuel
    have h0 : selfState 0 = ⟨[1], [1], [], false, true, 0, [], none, false⟩ := by
      simp [selfState]
    rw [← h0]
    exact selfState_chain 100 0 fuel (by omega) (by omega)

/-- Witness for C6: the one-step break applied to a scheduler whose
watcher 7 is at the cursor with its counter already at 100, and the
self-requeueing scenario at the minimal fuel. -/
theorem flush_infinite_update_guard_witness :
    (flushLoopO true selfRequeue (5 + 1) ⟨[7], [], [(7, 100)], true, true, 0, [], none, false⟩ =
      some { bumpCircular
               (flushStepState selfRequeue ⟨[7], [], [(7, 100)], true, true, 0, [], none, false⟩)
               ([7].getD 0 0) with
             aborted := true
             warned := some ([7].getD 0 0) }) ∧
    (flushLoopO true selfRequeue 102 ⟨[1], [1], [], false, true, 0, [], none, false⟩ =
      some ⟨List.replicate 102 1, [1], [(1, 101)], true, true, 100,
            List.replicate 101 1, some 1, true⟩) := by
  constructor
  · exact flush_infinite_update_guard.1 selfRequeue 5
      ⟨[7], [], [(7, 100)], true, true, 0, [], none, false⟩
      (by decide) (by decide) (by decide)
  · exact flush_infinite_update_guard.2 102 (by decide)

/-- **C10.** In a production build (`process.env.NODE_ENV === "production"`,
i.e. `dev = false`) the re-entry counter and the early-abort check are
skipped.  Part 1: any completed production flush loop leaves the
`circular` counters untouched and never sets the abort flag.  Part 2:
`resetSchedulerState` does not clear the counters either in production.
Part 3: with the safety valve inactive, the self-requeueing watcher makes
the flush loop run forever — it exhausts every fuel bound (the watcher
re-enters the queue an unbounded number of times). -/
theorem production_flush_no_safety_valve :
    (∀ enq fuel s r, flushLoopO false enq fuel s = some r →
      r.circular = s.circular ∧ r.aborted = s.aborted) ∧
    (∀ s, (resetSchedulerState false s).circular = s.circular) ∧
    (∀ fuel s, s.flushing = true → s.index < s.queue.length → s.has.Nodup →
      flushLoopO false selfRequeue fuel s = none) := by
  refine ⟨?_, fun s => rfl, ?_⟩
  · intro enq fuel
    induction fuel with
    | zero => intro s r h; simp [flushLoopO] at h
    | succ f ih =>
      intro s r h
      rw [flushLoopO] at h
      by_cases h1 : s.index < s.queue.length
      · rw [if_pos h1, if_neg (by simp)] at h
        obtain ⟨hc, ha⟩ := ih _ _ h
        constructor
        · rw [hc]
          exact (foldl_queueWatcher_preserves _ _).1
        · rw [ha]
          exact (foldl_queueWatcher_preserves _ _).2.2.2.2
      · rw [if_neg h1] at h
        obtain rfl := Option.some.inj h
        exact ⟨rfl, rfl⟩
  · intro fuel
    induction fuel with
    | zero => intro s _ _ _; simp [flushLoopO]
    | succ f ih =>
      intro s hfl hidx hnodup
      rw [flushLoopO, if_pos hidx, if_neg (by simp)]
      have hbase : (s.queue.getD s.index 0) ∉ (s.has.erase (s.queue.getD s.index 0)) :=
        hnodup.not_mem_erase
      have hstep : flushStepState selfRequeue s =
          queueWatcher
            { s with has := s.has.erase (s.queue.getD s.index 0),
                     ran := s.ran ++ [s.queue.getD s.index 0] }
            (s.queue.getD s.index 0) := by
        simp [flushStepState, selfRequeue]
      apply ih
      · show (flushStepState selfRequeue s).flushing = true
        rw [hstep]
        rw [(queueWatcher_preserves _ _).2.1]
        exact hfl
      · show s.index + 1 < (flushStepState selfRequeue s).queue.length
        rw [hstep, queueWatcher_queue_len _ _ hbase]
        simpa using hidx
      · show (flushStepState selfRequeue s).has.Nodup
        rw [hstep]
        exact queueWatcher_has_nodup _ _ (hnodup.erase _)

/-- Witness for C10: a production flush of the one-element queue `[3]`
(no re-queueing) completes with counters and abort flag untouched, and the
production self-requeue scenario exhausts fuel 5. -/
theorem production_flush_no_safety_valve_witness :
    ((flushLoopO false (fun _ => []) 2 ⟨[3], [3], [(9, 4)], true, true, 0, [], none, false⟩ =
        some ⟨[3], [], [(9, 4)], true, true, 1, [3], none, false⟩) ∧
      ([(9, 4)] : List (Nat × Nat)) = [(9, 4)] ∧ (false = false)) ∧
    ((resetSchedulerState false ⟨[3], [3], [(9, 4)], true, true, 0, [], none, false⟩).circular =
      [(9, 4)]) ∧
    (flushLoopO false selfRequeue 5 ⟨[1], [1], [], false, true, 0, [], none, false⟩ = none) := by
  refine ⟨⟨by decide, ?_, ?_⟩, ?_, ?_⟩
  · exact (production_flush_no_safety_valve.1 (fun _ => []) 2
      ⟨[3], [3], [(9, 4)], true, true, 0, [], none, false⟩
      ⟨[3], [], [(9, 4)], true, true, 1, [3], none, false⟩ (by decide)).1
  · exact (production_flush_no_safety_valve.1 (fun _ => []) 2
      ⟨[3], [3], [(9, 4)], true, true, 0, [], none, false⟩
      ⟨[3], [], [(9, 4)], true, true, 1, [3], none, false⟩ (by decide)).2
  · exact production_flush_no_safety_valve.2.1 _
  · exact production_flush_no_safety_valve.2.2 5 _ (by decide) (by decide) (by decide)

/-- **C4.** The reactive setter's equality suppression.  Part 1: when the
new value is `===` the current one, or both are `NaN`, the setter returns
without storing and without notifying (state unchanged).  Part 2:
otherwise it stores the value, observes it iff it is a container, and
notifies.  Part 3: in particular, a `!==` object reference (distinct
identity, however equal-looking) does notify. -/
theorem reactive_setter_equality_suppression :
    (∀ c v, jsEq v c.value = true ∨ (jsEq v v = false ∧ jsEq c.value c.value = false) →
      reactiveSetter c v = c) ∧
    (∀ c v, jsEq v c.value = false →
      jsEq v v = true ∨ jsEq c.value c.value = true →
      (reactiveSetter c v).value = v ∧
        (reactiveSetter c v).childObserved = isContainer v ∧
        (reactiveSetter c v).notifyCount = c.notifyCount + 1) ∧
    (∀ c i j, i ≠ j → c.value = JSVal.obj i →
      (reactiveSetter c (JSVal.obj j)).notifyCount = c.notifyCount + 1) := by
  refine ⟨?_, ?_, ?_⟩
  · intro c v h
    unfold reactiveSetter
    rcases h with h | ⟨h1, h2⟩
    · rw [if_pos (by simp [h])]
    · rw [if_pos (by simp [h1, h2])]
  · intro c v h1 h2
    unfold reactiveSetter
    rw [if_neg (by rcases h2 with h2 | h2 <;> simp [h1, h2])]
    exact ⟨rfl, rfl, rfl⟩
  · intro c i j hij hc
    unfold reactiveSetter
    rw [if_neg (by simp [hc, jsEq, hij.symm])]

/-- Witness for C4: `num 5` over `num 5` and `NaN` over `NaN` are
suppressed; `obj 2` over `obj 1` (distinct references) stores, observes
and notifies. -/
theorem reactive_setter_equality_suppression_witness :
    (reactiveSetter ⟨JSVal.num 5, false, 0⟩ (JSVal.num 5) = ⟨JSVal.num 5, false, 0⟩) ∧
    (reactiveSetter ⟨JSVal.nan, false, 3⟩ JSVal.nan = ⟨JSVal.nan, false, 3⟩) ∧
    ((reactiveSetter ⟨JSVal.obj 1, true, 0⟩ (JSVal.obj 2)).value = JSVal.obj 2 ∧
      (reactiveSetter ⟨JSVal.obj 1, true, 0⟩ (JSVal.obj 2)).childObserved =
        isContainer (JSVal.obj 2) ∧
      (reactiveSetter ⟨JSVal.obj 1, true, 0⟩ (JSVal.obj 2)).notifyCount = 0 + 1) ∧
    ((reactiveSetter ⟨JSVal.obj 1, true, 4⟩ (JSVal.obj 2)).notifyCount = 4 + 1) := by
  refine ⟨?_, ?_, ?_, ?_⟩
  · exact reactive_setter_equality_suppression.1 _ _ (Or.inl (by decide))
  · exact reactive_setter_equality_suppression.1 _ _ (Or.inr (by decide))
  · exact reactive_setter_equality_suppression.2.1 _ _ (by decide) (Or.inl (by decide))
  · exact reactive_setter_equality_suppression.2.2 ⟨JSVal.obj 1, true, 4⟩ 1 2
      (by decide) rfl

/-- **C5.** Each intercepted array method delegates to the original
`Array.prototype` mutation and hands back its result unchanged; the values
passed to `ob.observeArray` are exactly the inserted elements —
`push`/`unshift`: all arguments, `splice`: the arguments from index 2 on,
and nothing for `pop`/`shift`/`sort`/`reverse` — and every method,
including the four that insert nothing, calls `ob.dep.notify()` exactly
once. -/
theorem array_mutator_intercepts :
    (∀ m args s, ((mutator m args s).1.items, (mutator m args s).2) =
      runOriginal m s.items args) ∧
    (∀ m args s, (mutator m args s).1.notifyCount = s.notifyCount + 1) ∧
    (∀ args s, (mutator .push args s).1.observedQueue = s.observedQueue ++ args) ∧
    (∀ args s, (mutator .unshift args s).1.observedQueue = s.observedQueue ++ args) ∧
    (∀ args s, (mutator .splice args s).1.observedQueue =
      s.observedQueue ++ args.drop 2) ∧
    (∀ args s, (mutator .pop args s).1.observedQueue = s.observedQueue) ∧
    (∀ args s, (mutator .shift args s).1.observedQueue = s.observedQueue) ∧
    (∀ args s, (mutator .sort args s).1.observedQueue = s.observedQueue) ∧
    (∀ args s, (mutator .reverse args s).1.observedQueue = s.observedQueue) := by
  refine ⟨fun m args s => rfl, fun m args s => rfl, ?_, ?_, ?_, ?_, ?_, ?_, ?_⟩ <;>
    intro args s <;> simp [mutator, insertedOf]

lemma jsEq_str_iff (v : JSVal) (s : String) :
    jsEq v (JSVal.str s) = true ↔ v = JSVal.str s := by
  cases v <;> simp [jsEq]

/-- **C7 counterexample.** The claim reads `sameVnode`'s second disjunct as
"both are unresolved async placeholders with no error", but the source only
tests `a.isAsyncPlaceholder` and `b.asyncFactory.error`.  For an unresolved
placeholder `a` (comment node, no tag) against the resolved node `b` of the
same error-free factory (tag `"div"`, not a placeholder), `sameVnode` is
true while the claim's description is false. -/
theorem sameVnode_claim_counterexample :
    sameVnode
        ⟨JSVal.undef, some ⟨0, false⟩, JSVal.undef, true, none, true⟩
        ⟨JSVal.undef, some ⟨0, false⟩, JSVal.str "div", false, some ⟨none⟩, false⟩ = true ∧
      sameVnodeClaim
        ⟨JSVal.undef, some ⟨0, false⟩, JSVal.undef, true, none, true⟩
        ⟨JSVal.undef, some ⟨0, false⟩, JSVal.str "div", false, some ⟨none⟩, false⟩ = false := by
  decide

/-- **C7 (amended).** `sameVnode(a, b)` returns true iff `a.key === b.key`,
`a.asyncFactory === b.asyncFactory`, and either (same tag, same
comment-ness, both-or-neither `data`, and — when the tag is `input` — the
computed `type` attributes identical or both text-like), or `a` is an
unresolved async placeholder and the factory, as read through `b`, has no
defined `error`.  (Keyless nodes compare `undefined === undefined`, so the
key conjunct holds for any two keyless nodes.)  The hypothesis records
that a vnode flagged `isAsyncPlaceholder` always carries a factory — the
JS source would throw on `b.asyncFactory.error` otherwise. -/
theorem sameVnode_iff_spec_amended (a b : VNodeL)
    (_hwf : a.isAsyncPlaceholder = true → (b.asyncFactory).isSome = true) :
    sameVnode a b = true ↔ sameVnodeSpecAmended a b := by
  unfold sameVnode sameVnodeSpecAmended
  simp only [Bool.and_eq_true, Bool.or_eq_true, beq_iff_eq]
  rw [and_assoc]
  refine and_congr Iff.rfl (and_congr Iff.rfl (or_congr ?_ Iff.rfl))
  rw [and_assoc, and_assoc]
  refine and_congr Iff.rfl (and_congr Iff.rfl (and_congr Iff.rfl ?_))
  unfold sameInputType
  by_cases htag : jsEq a.tag (JSVal.str "input") = false
  · rw [if_pos htag]
    simp only [true_iff]
    intro hc
    rw [(jsEq_str_iff a.tag "input").mpr hc] at htag
    simp at htag
  · rw [if_neg htag]
    have : a.tag = JSVal.str "input" :=
      (jsEq_str_iff a.tag "input").mp (by revert htag; cases jsEq a.tag (JSVal.str "input") <;> simp)
    simp [this, Bool.and_eq_true, Bool.or_eq_true]

/-- Witness for the amended C7: two keyless text inputs whose `type`
attributes are `"text"` and `"email"` (both text-like) are the same vnode;
the claim-side predicate agrees. -/
theorem sameVnode_iff_spec_amended_witness :
    ((⟨JSVal.undef, none, JSVal.str "input", false, some ⟨some ⟨some "text"⟩⟩, false⟩ :
        VNodeL).isAsyncPlaceholder = true →
      ((⟨JSVal.undef, none, JSVal.str "input", false, some ⟨some ⟨some "email"⟩⟩, false⟩ :
        VNodeL).asyncFactory).isSome = true) ∧
    (sameVnode
        ⟨JSVal.undef, none, JSVal.str "input", false, some ⟨some ⟨some "text"⟩⟩, false⟩
        ⟨JSVal.undef, none, JSVal.str "input", false, some ⟨some ⟨some "email"⟩⟩, false⟩ = true ↔
      sameVnodeSpecAmended
        ⟨JSVal.undef, none, JSVal.str "input", false, some ⟨some ⟨some "text"⟩⟩, false⟩
        ⟨JSVal.undef, none, JSVal.str "input", false, some ⟨some ⟨some "email"⟩⟩, false⟩) := by
  constructor
  · decide
  · exact sameVnode_iff_spec_amended _ _ (by decide)

lemma padTo_length (items : List JSVal) (n : Nat) :
    (padTo items n).length = max items.length n := by
  simp only [padTo, List.length_append, List.length_replicate]
  omega

/-- **C9 counterexample.** `set` on root `$data` — an observed plain
object whose observer has `vmCount = 1`.  The key `"b"` is neither an own
key nor an `Object.prototype` name and the target does carry an `__ob__`,
so the claim's "otherwise" branch promises `defineReactive` plus a
container notify; the source's Vue-instance / root-`$data` guard
(observer/index.js lines 292–299) instead returns `val` with the target
untouched — nothing is assigned, instrumented or notified (only the dev
warning fires). -/
theorem set_root_data_counterexample :
    hasOwnF [] (jsPropKey (JSVal.str "b")) = false ∧
    objectProtoKeys.contains (jsPropKey (JSVal.str "b")) = false ∧
    set (.obj [] true false 1) (JSVal.str "b") (JSVal.num 7) =
      { target := .obj [] true false 1
        returned := JSVal.num 7
        notified := false
        definedReactive := none
        warned := true } := by
  decide

/-- **C9, amended.**  `set(target, key, val)`, branch by branch in source
order.  Part 1: an array with a valid index extends `length` and delegates
to the intercepted `splice(key, 1, val)` (notifying exactly when the array
is observed), and the value is readable at that index afterwards.  Part 2:
a key present on an object (own, or an inherited name) that is not an
`Object.prototype` name is plain-assigned — no instrumentation, no
notification.  Part 3: the same present-key branch on an array covers the
own `length` (running the platform's exotic length write) and the
inherited `Array.prototype` names — again a plain assignment with no
reactivity.  Part 4: a Vue instance, or a target whose observer has
`vmCount ≥ 1` (a component's root `$data`), is returned from with nothing
assigned, instrumented or notified — only the dev warning fires.  Part 5:
a non-Vue target without `__ob__` is plain-assigned with no reactivity.
Part 6: otherwise the new key is made reactive via `defineReactive` and
the container observer's dep notifies; part 7 is the same final branch on
an observed non-root array with a non-index, absent key (an instrumented
expando).  Part 8: every branch returns `val`. -/
theorem set_api_branches_amended :
    (∀ items hasOb vmCount key val, isValidArrayIndex key = true →
      set (.arr items hasOb vmCount) key val =
        { target := .arr
            ((mutator .splice [JSVal.num (keyToNat key), JSVal.num 1, val]
                ⟨padTo items (max items.length (keyToNat key)), [], 0⟩).1.items)
            hasOb vmCount
          returned := val
          notified := hasOb
          definedReactive := none
          warned := false } ∧
      ((mutator .splice [JSVal.num (keyToNat key), JSVal.num 1, val]
          ⟨padTo items (max items.length (keyToNat key)), [], 0⟩).1.items).getD
        (keyToNat key) JSVal.undef = val) ∧
    (∀ fields hasOb isVue vmCount key val,
      hasOwnF fields (jsPropKey key) = true →
      objectProtoKeys.contains (jsPropKey key) = false →
      set (.obj fields hasOb isVue vmCount) key val =
        { target := .obj (setField fields (jsPropKey key) val) hasOb isVue vmCount
          returned := val, notified := false, definedReactive := none
          warned := false }) ∧
    (∀ items hasOb vmCount key val,
      isValidArrayIndex key = false →
      arrayProtoKeys.contains (jsPropKey key) = true →
      objectProtoKeys.contains (jsPropKey key) = false →
      set (.arr items hasOb vmCount) key val =
        { target := .arr
            (if jsPropKey key = "length" then setArrayLength items val else items)
            hasOb vmCount
          returned := val, notified := false, definedReactive := none
          warned := false }) ∧
    (∀ fields hasOb isVue vmCount key val,
      hasOwnF fields (jsPropKey key) = false →
      (isVue = true ∨ (hasOb = true ∧ vmCount ≠ 0)) →
      set (.obj fields hasOb isVue vmCount) key val =
        { target := .obj fields hasOb isVue vmCount, returned := val
          notified := false, definedReactive := none, warned := true }) ∧
    (∀ fields vmCount key val, hasOwnF fields (jsPropKey key) = false →
      set (.obj fields false false vmCount) key val =
        { target := .obj (setField fields (jsPropKey key) val) false false vmCount
          returned := val, notified := false, definedReactive := none
          warned := false }) ∧
    (∀ fields key val, hasOwnF fields (jsPropKey key) = false →
      set (.obj fields true false 0) key val =
        { target := .obj (setField fields (jsPropKey key) val) true false 0
          returned := val, notified := true
          definedReactive := some (jsPropKey key), warned := false }) ∧
    (∀ items key val, isValidArrayIndex key = false →
      arrayProtoKeys.contains (jsPropKey key) = false →
      set (.arr items true 0) key val =
        { target := .arr items true 0, returned := val, notified := true
          definedReactive := some (jsPropKey key), warned := false }) ∧
    (∀ target key val, (set target key val).returned = val) := by
  refine ⟨?_, ?_, ?_, ?_, ?_, ?_, ?_, ?_⟩
  · intro items hasOb vmCount key val hvalid
    constructor
    · simp only [set]
      rw [if_pos hvalid]
    · have hplen : (padTo items (max items.length (keyToNat key))).length =
          max items.length (keyToNat key) := by
        rw [padTo_length]
        omega
      simp only [mutator, runOriginal]
      have hstart : runOriginal.spliceStart
          (padTo items (max items.length (keyToNat key)))
          [JSVal.num (keyToNat key), JSVal.num 1, val] = keyToNat key := by
        simp only [runOriginal.spliceStart, jsToInt, List.getD_cons_zero]
        rw [if_neg (by omega)]
        rw [hplen]
        omega
      rw [hstart]
      have hlen : (List.take (keyToNat key)
          (padTo items (max items.length (keyToNat key)))).length = keyToNat key := by
        rw [List.length_take, hplen]
        omega
      rw [List.append_assoc, List.getD_append_right _ _ _ _ hlen.le, hlen, Nat.sub_self]
      rfl
  · intro fields hasOb isVue vmCount key val hown hproto
    simp only [set]
    rw [if_pos (by rw [hown, hproto]; rfl)]
  · intro items hasOb vmCount key val hvalid hin hproto
    simp only [set]
    rw [if_neg (by simp [hvalid]), if_pos (by rw [hin, hproto]; rfl)]
  · intro fields hasOb isVue vmCount key val hown hguard
    simp only [set]
    rw [if_neg (by simp [hown]), if_pos ?_]
    rcases hguard with h | ⟨h1, h2⟩
    · rw [h]
      rfl
    · rw [h1]
      simp [h2]
  · intro fields vmCount key val hown
    simp only [set]
    rw [if_neg (by simp [hown]), if_neg (by simp), if_pos (by simp)]
  · intro fields key val hown
    simp only [set]
    rw [if_neg (by simp [hown]), if_neg (by simp), if_neg (by simp)]
  · intro items key val hvalid hnotin
    simp only [set]
    rw [if_neg (by simp [hvalid]),
      if_neg (by
        simp
        intro h
        exact h.resolve_left (by simpa using hnotin)),
      if_neg (by simp), if_neg (by simp)]
  · intro target key val
    cases target <;> simp only [set] <;>
      split <;> first | rfl |
        (split <;> first | rfl | (split <;> first | rfl | (split <;> rfl)))

/-- Witness for C9: index 5 into the observed 2-element array `[num 8,
num 9]` (length extended, hole-padded, value lands at index 5, notify);
plain re-assignment of existing key `"a"`; `arr.length = 1` truncating an
observed array with no notify; `set` on root `$data` returning untouched;
adding `"b"` to an unobserved object (no notify); adding `"b"` to an
observed non-root object (`defineReactive` + notify); an instrumented
expando `"foo"` on an observed array; and the returned value. -/
theorem set_api_branches_amended_witness :
    (set (.arr [JSVal.num 8, JSVal.num 9] true 0) (JSVal.num 5) (JSVal.num 7) =
        { target := .arr
            ((mutator .splice [JSVal.num (keyToNat (JSVal.num 5)), JSVal.num 1, JSVal.num 7]
                ⟨padTo [JSVal.num 8, JSVal.num 9]
                  (max [JSVal.num 8, JSVal.num 9].length (keyToNat (JSVal.num 5))), [], 0⟩).1.items)
            true 0
          returned := JSVal.num 7
          notified := true
          definedReactive := none
          warned := false } ∧
      ((mutator .splice [JSVal.num (keyToNat (JSVal.num 5)), JSVal.num 1, JSVal.num 7]
          ⟨padTo [JSVal.num 8, JSVal.num 9]
            (max [JSVal.num 8, JSVal.num 9].length (keyToNat (JSVal.num 5))), [], 0⟩).1.items).getD
        (keyToNat (JSVal.num 5)) JSVal.undef = JSVal.num 7) ∧
    (set (.obj [("a", JSVal.num 1)] true false 0) (JSVal.str "a") (JSVal.num 2) =
      { target := .obj (setField [("a", JSVal.num 1)] "a" (JSVal.num 2)) true false 0
        returned := JSVal.num 2, notified := false, definedReactive := none
        warned := false }) ∧
    (set (.arr [JSVal.num 8, JSVal.num 9] true 0) (JSVal.str "length") (JSVal.num 1) =
      { target := .arr
          (if jsPropKey (JSVal.str "length") = "length"
            then setArrayLength [JSVal.num 8, JSVal.num 9] (JSVal.num 1)
            else [JSVal.num 8, JSVal.num 9])
          true 0
        returned := JSVal.num 1, notified := false, definedReactive := none
        warned := false }) ∧
    (set (.obj [("a", JSVal.num 1)] true false 2) (JSVal.str "b") (JSVal.num 3) =
      { target := .obj [("a", JSVal.num 1)] true false 2, returned := JSVal.num 3
        notified := false, definedReactive := none, warned := true }) ∧
    (set (.obj [("a", JSVal.num 1)] false false 0) (JSVal.str "b") (JSVal.num 3) =
      { target := .obj (setField [("a", JSVal.num 1)] "b" (JSVal.num 3)) false false 0
        returned := JSVal.num 3, notified := false, definedReactive := none
        warned := false }) ∧
    (set (.obj [("a", JSVal.num 1)] true false 0) (JSVal.str "b") (JSVal.num 3) =
      { target := .obj (setField [("a", JSVal.num 1)] "b" (JSVal.num 3)) true false 0
        returned := JSVal.num 3, notified := true, definedReactive := some "b"
        warned := false }) ∧
    (set (.arr [JSVal.num 8] true 0) (JSVal.str "foo") (JSVal.num 3) =
      { target := .arr [JSVal.num 8] true 0, returned := JSVal.num 3
        notified := true, definedReactive := some "foo", warned := false }) ∧
    ((set (.obj [] true true 3) (JSVal.str "c") JSVal.nan).returned = JSVal.nan) := by
  refine ⟨?_, ?_, ?_, ?_, ?_, ?_, ?_, ?_⟩
  · exact set_api_branches_amended.1 [JSVal.num 8, JSVal.num 9] true 0 (JSVal.num 5)
      (JSVal.num 7) (by decide)
  · exact set_api_branches_amended.2.1 [("a", JSVal.num 1)] true false 0 (JSVal.str "a")
      (JSVal.num 2) (by decide) (by decide)
  · exact set_api_branches_amended.2.2.1 [JSVal.num 8, JSVal.num 9] true 0
      (JSVal.str "length") (JSVal.num 1) (by decide) (by decide) (by decide)
  · exact set_api_branches_amended.2.2.2.1 [("a", JSVal.num 1)] true false 2
      (JSVal.str "b") (JSVal.num 3) (by decide) (Or.inr ⟨rfl, by decide⟩)
  · exact set_api_branches_amended.2.2.2.2.1 [("a", JSVal.num 1)] 0 (JSVal.str "b")
      (JSVal.num 3) (by decide)
  · exact set_api_branches_amended.2.2.2.2.2.1 [("a", JSVal.num 1)] (JSVal.str "b")
      (JSVal.num 3) (by decide)
  · exact set_api_branches_amended.2.2.2.2.2.2.1 [JSVal.num 8] (JSVal.str "foo")
      (JSVal.num 3) (by decide) (by decide)
  · exact set_api_branches_amended.2.2.2.2.2.2.2 (.obj [] true true 3) (JSVal.str "c")
      JSVal.nan

lemma intRange_empty (a b : Int) (h : b < a) : intRange a b = [] := by
  unfold intRange
  rw [show (b + 1 - a).toNat = 0 by omega]
  rfl

lemma intRange_cons (a b : Int) (h : a ≤ b) :
    intRange a b = a :: intRange (a + 1) b := by
  unfold intRange
  obtain ⟨m, hm⟩ : ∃ m, (b + 1 - a).toNat = m + 1 := ⟨(b - a).toNat, by omega⟩
  rw [hm, List.range_succ_eq_map, show (b + 1 - (a + 1)).toNat = m by omega]
  simp only [List.map_cons, List.map_map]
  refine congrArg₂ _ (by omega) ?_
  refine List.map_congr_left fun x _ => ?_
  simp only [Function.comp_apply]
  omega

lemma intRange_concat (a b : Int) (h : a ≤ b) :
    intRange a b = intRange a (b - 1) ++ [b] := by
  unfold intRange
  obtain ⟨m, hm⟩ : ∃ m, (b + 1 - a).toNat = m + 1 := ⟨(b - a).toNat, by omega⟩
  rw [hm, List.range_succ, show (b - 1 + 1 - a).toNat = m by omega]
  rw [List.map_append]
  refine congrArg₂ _ rfl ?_
  simp only [List.map_cons, List.map_nil]
  refine congrArg₂ _ (by omega) rfl

lemma mem_intRange {i a b : Int} : i ∈ intRange a b ↔ a ≤ i ∧ i ≤ b := by
  unfold intRange
  simp only [List.mem_map, List.mem_range]
  constructor
  · rintro ⟨k, hk, rfl⟩
    omega
  · rintro ⟨h1, h2⟩
    exact ⟨(i - a).toNat, by omega, by omega⟩

lemma intRange_nodup (a b : Int) : (intRange a b).Nodup := by
  unfold intRange
  refine (List.nodup_range _).map fun x y h => ?_
  omega

lemma intRange_split_aux (i b : Int) : ∀ (n : Nat) (a : Int),
    (i - a).toNat = n → a ≤ i → i ≤ b →
    intRange a b = intRange a (i - 1) ++ i :: intRange (i + 1) b := by
  intro n
  induction n with
  | zero =>
    intro a hn h1 h2
    obtain rfl : a = i := by omega
    rw [intRange_cons a b (by omega), intRange_empty a (a - 1) (by omega)]
    rfl
  | succ m ih =>
    intro a hn h1 h2
    rw [intRange_cons a b (by omega), intRange_cons a (i - 1) (by omega),
      ih (a + 1) (by omega) (by omega) h2]
    rfl

lemma intRange_split (a b i : Int) (h1 : a ≤ i) (h2 : i ≤ b) :
    intRange a b = intRange a (i - 1) ++ i :: intRange (i + 1) b :=
  intRange_split_aux i b _ a rfl h1 h2

lemma getO_map_some (l : List PVNode) (i : Int) : getO (l.map some) i = getN l i := by
  unfold getO getN
  simp only [List.length_map]
  split
  · simp [List.get_eq_getElem, List.getElem_map]
  · rfl

lemma getN_mem {l : List PVNode} {i : Int} {x : PVNode} (h : getN l i = some x) :
    x ∈ l := by
  unfold getN at h
  split at h
  · exact (Option.some.inj h) ▸ List.get_mem _ _ _
  · cases h

lemma getN_of_bounds {l : List PVNode} {i : Int} (h1 : 0 ≤ i)
    (h2 : i < (l.length : Int)) : ∃ x, getN l i = some x := by
  unfold getN
  rw [dif_pos ⟨h1, by omega⟩]
  exact ⟨_, rfl⟩

lemma getO_bounds {l : List (Option PVNode)} {i : Int} {x : PVNode}
    (h : getO l i = some x) : 0 ≤ i ∧ i.toNat < l.length := by
  unfold getO at h
  split at h
  · assumption
  · cases h

lemma getO_setO_self (l : List (Option PVNode)) (i : Int) (h : 0 ≤ i)
    (hlen : i.toNat < l.length) : getO (setO l i) i = none := by
  unfold setO getO
  rw [if_pos h, dif_pos ⟨h, by simpa using hlen⟩]
  simp [List.get_eq_getElem, List.getElem_set_self]

lemma getO_setO_ne (l : List (Option PVNode)) (i j : Int) (hne : j ≠ i) :
    getO (setO l i) j = getO l j := by
  unfold setO
  by_cases hi : 0 ≤ i
  · rw [if_pos hi]
    unfold getO
    simp only [List.length_set]
    by_cases hj : 0 ≤ j ∧ j.toNat < l.length
    · rw [dif_pos hj, dif_pos hj]
      have hne' : i.toNat ≠ j.toNat := by omega
      simp [List.get_eq_getElem, List.getElem_set_ne hne']
    · rw [dif_neg hj, dif_neg hj]
  · rw [if_neg hi]

lemma setO_length (l : List (Option PVNode)) (i : Int) :
    (setO l i).length = l.length := by
  unfold setO
  split <;> simp

lemma activeO_congr {l l' : List (Option PVNode)} {a b : Int}
    (h : ∀ i, a ≤ i → i ≤ b → getO l i = getO l' i) :
    activeO l a b = activeO l' a b := by
  unfold activeO
  refine List.filterMap_congr fun i hi => ?_
  obtain ⟨h1, h2⟩ := mem_intRange.mp hi
  exact h i h1 h2

lemma activeO_cons (l : List (Option PVNode)) (a b : Int) (h : a ≤ b) :
    activeO l a b = (getO l a).toList ++ activeO l (a + 1) b := by
  unfold activeO
  rw [intRange_cons a b h, List.filterMap_cons]
  cases getO l a <;> simp

lemma activeO_concat (l : List (Option PVNode)) (a b : Int) (h : a ≤ b) :
    activeO l a b = activeO l a (b - 1) ++ (getO l b).toList := by
  unfold activeO
  rw [intRange_concat a b h, List.filterMap_append, List.filterMap_cons]
  cases getO l b <;> simp

lemma activeO_split (l : List (Option PVNode)) (a b i : Int) (h1 : a ≤ i)
    (h2 : i ≤ b) :
    activeO l a b = activeO l a (i - 1) ++ (getO l i).toList ++ activeO l (i + 1) b := by
  unfold activeO
  rw [intRange_split a b i h1 h2, List.filterMap_append, List.filterMap_cons]
  cases getO l i <;> simp

lemma mem_activeO {l : List (Option PVNode)} {a b : Int} {x : PVNode} :
    x ∈ activeO l a b ↔ ∃ i, a ≤ i ∧ i ≤ b ∧ getO l i = some x := by
  unfold activeO
  simp only [List.mem_filterMap]
  constructor
  · rintro ⟨i, hi, hx⟩
    obtain ⟨h1, h2⟩ := mem_intRange.mp hi
    exact ⟨i, h1, h2, hx⟩
  · rintro ⟨i, h1, h2, hx⟩
    exact ⟨i, mem_intRange.mpr ⟨h1, h2⟩, hx⟩

lemma activeN_cons (l : List PVNode) (a b : Int) (h : a ≤ b) :
    activeN l a b = (getN l a).toList ++ activeN l (a + 1) b := by
  unfold activeN
  rw [intRange_cons a b h, List.filterMap_cons]
  cases getN l a <;> simp

lemma activeN_concat (l : List PVNode) (a b : Int) (h : a ≤ b) :
    activeN l a b = activeN l a (b - 1) ++ (getN l b).toList := by
  unfold activeN
  rw [intRange_concat a b h, List.filterMap_append, List.filterMap_cons]
  cases getN l b <;> simp

lemma mem_activeN {l : List PVNode} {a b : Int} {x : PVNode} :
    x ∈ activeN l a b ↔ ∃ i, a ≤ i ∧ i ≤ b ∧ getN l i = some x := by
  unfold activeN
  simp only [List.mem_filterMap]
  constructor
  · rintro ⟨i, hi, hx⟩
    obtain ⟨h1, h2⟩ := mem_intRange.mp hi
    exact ⟨i, h1, h2, hx⟩
  · rintro ⟨i, h1, h2, hx⟩
    exact ⟨i, mem_intRange.mpr ⟨h1, h2⟩, hx⟩

lemma activeO_empty (l : List (Option PVNode)) (a b : Int) (h : b < a) :
    activeO l a b = [] := by
  unfold activeO
  rw [intRange_empty a b h]
  rfl

lemma activeN_empty (l : List PVNode) (a b : Int) (h : b < a) :
    activeN l a b = [] := by
  unfold activeN
  rw [intRange_empty a b h]
  rfl

lemma ucStep_none_iff (c : Bool) (s : UCState) :
    ucStep c s = none ↔ ¬(s.oldStartIdx ≤ s.oldEndIdx ∧ s.newStartIdx ≤ s.newEndIdx) := by
  unfold ucStep
  split
  · rename_i hg
    simp [hg]
  · rename_i hg
    simp [hg]

lemma ucStep_measure (c : Bool) (s s' : UCState)
    (h : ucStep c s = some (some s')) : ucMeasure s' < ucMeasure s := by
  unfold ucStep at h
  split at h
  case isFalse => cases h
  rename_i hg
  obtain ⟨hg1, hg2⟩ := hg
  rw [Option.some.injEq] at h
  split at h
  · obtain rfl := Option.some.inj h
    simp only [ucMeasure]
    omega
  · split at h
    · obtain rfl := Option.some.inj h
      simp only [ucMeasure]
      omega
    · split at h
      · split at h
        · obtain rfl := Option.some.inj h
          simp only [ucMeasure]
          omega
        · split at h
          · obtain rfl := Option.some.inj h
            simp only [ucMeasure]
            omega
          · split at h
            · obtain rfl := Option.some.inj h
              simp only [ucMeasure]
              omega
            · split at h
              · obtain rfl := Option.some.inj h
                simp only [ucMeasure]
                omega
              · split at h
                · obtain rfl := Option.some.inj h
                  simp only [ucMeasure]
                  omega
                · split at h
                  · cases h
                  · split at h
                    · obtain rfl := Option.some.inj h
                      simp only [ucMeasure]
                      omega
                    · obtain rfl := Option.some.inj h
                      simp only [ucMeasure]
                      omega
      · cases h

lemma mapGet_mapSet_self (m : List (String × Int)) (k : String) (v : Int) :
    mapGet (mapSet m k v) k = some v := by
  induction m with
  | nil => simp [mapGet, mapSet]
  | cons p rest ih =>
    unfold mapSet
    split
    · simp [mapGet]
    · rename_i hne
      unfold mapGet
      rw [if_neg hne]
      exact ih

lemma mapGet_mapSet_ne (m : List (String × Int)) (k : String) (v : Int)
    (k' : String) (h : k' ≠ k) : mapGet (mapSet m k v) k' = mapGet m k' := by
  induction m with
  | nil =>
    unfold mapSet mapGet
    rw [if_neg (fun he => h he.symm)]
    rfl
  | cons p rest ih =>
    unfold mapSet
    split
    · rename_i heq
      unfold mapGet
      rw [if_neg (fun he => h he.symm), if_neg (heq ▸ fun he => h he.symm)]
    · unfold mapGet
      by_cases hp : p.1 = k'
      · rw [if_pos hp, if_pos hp]
      · rw [if_neg hp, if_neg hp]
        exact ih

lemma buildFold_frozen (oldCh : List (Option PVNode)) (is : List Int)
    (m : List (String × Int)) (k : String)
    (h : ∀ j ∈ is, ∀ c, getO oldCh j = some c → isDefV c.core.key = true →
      keyStr c ≠ k) :
    mapGet (is.foldl (buildStep oldCh) m) k = mapGet m k := by
  induction is generalizing m with
  | nil => rfl
  | cons j rest ih =>
    rw [List.foldl_cons, ih _ (fun j' hj' => h j' (List.mem_cons_of_mem _ hj'))]
    unfold buildStep
    split
    · rename_i c hc
      split
      · rename_i hdef
        exact mapGet_mapSet_ne _ _ _ _ (h j (List.mem_cons_self _ _) c hc hdef).symm
      · rfl
    · rfl

lemma buildFold_lookup (oldCh : List (Option PVNode)) (is : List Int)
    (hisnd : is.Nodup) (m₀ : List (String × Int)) (i : Int) (c : PVNode)
    (hmem : i ∈ is) (hc : getO oldCh i = some c) (hdef : isDefV c.core.key = true)
    (hinj : ∀ j ∈ is, j ≠ i → ∀ c', getO oldCh j = some c' →
      isDefV c'.core.key = true → keyStr c' ≠ keyStr c) :
    mapGet (is.foldl (buildStep oldCh) m₀) (keyStr c) = some i := by
  induction is generalizing m₀ with
  | nil => cases hmem
  | cons j rest ih =>
    rw [List.foldl_cons]
    rcases List.mem_cons.mp hmem with rfl | hmem'
    · rw [buildFold_frozen _ _ _ _ ?_]
      · unfold buildStep
        rw [hc]
        show mapGet (if isDefV c.core.key = true then mapSet m₀ (keyStr c) i else m₀)
          (keyStr c) = some i
        rw [if_pos hdef]
        exact mapGet_mapSet_self _ _ _
      · intro j' hj' c' hc' hdef'
        refine hinj j' (List.mem_cons_of_mem _ hj') ?_ c' hc' hdef'
        rintro rfl
        exact (List.nodup_cons.mp hisnd).1 hj'
    · exact ih (List.nodup_cons.mp hisnd).2 _ hmem'
        (fun j' hj' hne c' => hinj j' (List.mem_cons_of_mem _ hj') hne c')

lemma activeO_keys_ne_of_lt (oldCh : List (Option PVNode)) (a b i j : Int)
    (ci cj : PVNode) (hdup : ((activeO oldCh a b).map keyStr).Nodup)
    (hi1 : a ≤ i) (hij : i < j) (hj2 : j ≤ b)
    (hci : getO oldCh i = some ci) (hcj : getO oldCh j = some cj) :
    keyStr ci ≠ keyStr cj := by
  have hsplit := activeO_split oldCh a b i hi1 (by omega)
  rw [hci] at hsplit
  have hcjmem : cj ∈ activeO oldCh (i + 1) b :=
    mem_activeO.mpr ⟨j, by omega, hj2, hcj⟩
  rw [hsplit] at hdup
  intro heq
  rw [List.map_append, List.nodup_append] at hdup
  obtain ⟨h1, h2, hdisj⟩ := hdup
  have hm1 : keyStr ci ∈ List.map keyStr (activeO oldCh a (i - 1) ++ (some ci).toList) := by
    simp
  have hm2 : keyStr ci ∈ List.map keyStr (activeO oldCh (i + 1) b) := by
    rw [heq]
    exact List.mem_map_of_mem _ hcjmem
  exact hdisj hm1 hm2

lemma activeO_keys_ne (oldCh : List (Option PVNode)) (a b : Int)
    (hdup : ((activeO oldCh a b).map keyStr).Nodup) (i j : Int) (ci cj : PVNode)
    (hi1 : a ≤ i) (hi2 : i ≤ b) (hj1 : a ≤ j) (hj2 : j ≤ b)
    (hci : getO oldCh i = some ci) (hcj : getO oldCh j = some cj) (hne : i ≠ j) :
    keyStr ci ≠ keyStr cj := by
  rcases hne.lt_or_lt with hlt | hlt
  · exact activeO_keys_ne_of_lt oldCh a b i j ci cj hdup hi1 hlt hj2 hci hcj
  · exact (activeO_keys_ne_of_lt oldCh a b j i cj ci hdup hj1 hlt hi2 hcj hci).symm

lemma createKeyToOldIdx_lookup (oldCh : List (Option PVNode)) (a b i : Int)
    (c : PVNode) (ha : a ≤ i) (hb : i ≤ b) (hc : getO oldCh i = some c)
    (hdef : isDefV c.core.key = true)
    (hdup : ((activeO oldCh a b).map keyStr).Nodup) :
    mapGet (createKeyToOldIdx oldCh a b) (keyStr c) = some i := by
  unfold createKeyToOldIdx
  refine buildFold_lookup oldCh _ (intRange_nodup a b) [] i c
    (mem_intRange.mpr ⟨ha, hb⟩) hc hdef ?_
  intro j hj hne c' hc' hdef'
  obtain ⟨hj1, hj2⟩ := mem_intRange.mp hj
  exact activeO_keys_ne oldCh a b hdup j i c' c hj1 hj2 ha hb hc' hc hne

lemma jsEq_eq {a b : JSVal} (h : jsEq a b = true) : a = b := by
  cases a <;> cases b <;> simp_all [jsEq]

lemma sameVnode_keys {a b : VNodeL} (h : sameVnode a b = true) :
    jsEq a.key b.key = true := by
  unfold sameVnode at h
  simp only [Bool.and_eq_true, Bool.or_eq_true] at h
  exact h.1.1

lemma intRange_shift (a b : Int) :
    intRange (a + 1) (b + 1) = (intRange a b).map (· + 1) := by
  unfold intRange
  rw [List.map_map, show (b + 1 + 1 - (a + 1)).toNat = (b + 1 - a).toNat by omega]
  refine List.map_congr_left fun x _ => ?_
  simp only [Function.comp_apply]
  omega

lemma getN_cons_shift (x : PVNode) (rest : List PVNode) (i : Int) (h : 0 ≤ i) :
    getN (x :: rest) (i + 1) = getN rest i := by
  unfold getN
  by_cases hb : i.toNat < rest.length
  · rw [dif_pos ⟨by omega, by simp only [List.length_cons]; omega⟩,
      dif_pos ⟨h, hb⟩]
    have ht : (i + 1).toNat = i.toNat + 1 := by omega
    simp only [List.get_eq_getElem, ht, List.getElem_cons_succ]
  · rw [dif_neg (by simp only [List.length_cons]; omega), dif_neg (by omega)]

lemma getN_zero (x : PVNode) (rest : List PVNode) :
    getN (x :: rest) 0 = some x := by
  unfold getN
  rw [dif_pos ⟨le_refl 0, by simp⟩]
  rfl

lemma activeN_cons_shift (x : PVNode) (rest : List PVNode) (a b : Int)
    (ha : 0 ≤ a) : activeN (x :: rest) (a + 1) (b + 1) = activeN rest a b := by
  unfold activeN
  rw [intRange_shift, List.filterMap_map]
  refine List.filterMap_congr fun i hi => ?_
  simp only [Function.comp_apply]
  exact getN_cons_shift x rest i (by have := (mem_intRange.mp hi).1; omega)

lemma activeN_all (l : List PVNode) : activeN l 0 ((l.length : Int) - 1) = l := by
  induction l with
  | nil => exact activeN_empty _ _ _ (by simp)
  | cons x rest ih =>
    rw [activeN_cons _ _ _ (by simp only [List.length_cons]; push_cast; omega),
      getN_zero]
    have hb : (((x :: rest).length : Int) - 1) = ((rest.length : Int) - 1) + 1 := by
      simp only [List.length_cons]
      push_cast
      ring
    have hsh : activeN (x :: rest) (0 + 1) (((x :: rest).length : Int) - 1) = rest := by
      rw [hb, activeN_cons_shift x rest 0 ((rest.length : Int) - 1) (le_refl 0)]
      exact ih
    rw [hsh]
    rfl

lemma activeO_init (olds : List PVNode) (a b : Int) :
    activeO (olds.map some) a b = activeN olds a b := by
  unfold activeO activeN
  exact List.filterMap_congr fun i _ => getO_map_some olds i

lemma ucCreates_eq_map (s : UCState) :
    ucCreates s = (activeNew s).map DiffOp.createOp := by
  unfold ucCreates activeNew activeN
  rw [List.map_filterMap]

lemma ucRemoves_eq_map (s : UCState) :
    ucRemoves s = (activeOld s).map DiffOp.removeOp := by
  unfold ucRemoves activeOld activeO
  rw [List.map_filterMap]

/-- One step of the diff loop, in the keyed-permutation scenario, cannot
crash and preserves `UCInv`. -/
lemma ucStep_preserves (olds news : List PVNode) (canMove : Bool) (s : UCState)
    (hkeys : ∀ o ∈ olds, isDefV o.core.key = true)
    (hsame : ∀ o n, o ∈ olds → n ∈ news →
      (sameVnodeP o n = true ↔ keyStr o = keyStr n))
    (hinv : UCInv olds news s) :
    ∀ r, ucStep canMove s = some r →
      (r = none → False) ∧ ∀ s', r = some s' → UCInv olds news s' := by
  obtain ⟨hnew, holdlen, hold, hb1, hb2, hb3, hb4, hpm, hadup, hops, hpairs,
    hreuse, hmap⟩ := hinv
  have holdsMem : ∀ (i : Int) (o : PVNode), getO s.oldCh i = some o → o ∈ olds := by
    intro i o hio
    rcases hold i with h | h
    · rw [hio] at h
      cases h
    · rw [hio] at h
      exact getN_mem h.symm
  have hNewMem : ∀ (i : Int) (n : PVNode), getN s.newCh i = some n → n ∈ news := by
    intro i n hin
    rw [hnew] at hin
    exact getN_mem hin
  intro r hr
  unfold ucStep at hr
  split at hr
  case isFalse => cases hr
  rename_i hg
  obtain ⟨hg1, hg2⟩ := hg
  rw [Option.some.injEq] at hr
  -- the two new-children reads at the cursor are defined
  have hnsl : s.newStartIdx < (s.newCh.length : Int) := by
    rw [hnew]
    omega
  obtain ⟨newStart0, hns0⟩ := getN_of_bounds hb3 hnsl
  have hnel : 0 ≤ s.newEndIdx := by omega
  have hneL : s.newEndIdx < (s.newCh.length : Int) := by
    rw [hnew]
    omega
  obtain ⟨newEnd0, hne0⟩ := getN_of_bounds hnel hneL
  split at hr
  · -- oldStartVnode undefined: advance oldStartIdx
    rename_i heq1
    refine ⟨(fun h => by rw [← hr] at h; cases h), fun s' h => ?_⟩
    rw [← hr] at h
    obtain rfl := Option.some.inj h
    have hAO : activeOld s = activeO s.oldCh (s.oldStartIdx + 1) s.oldEndIdx := by
      unfold activeOld
      rw [activeO_cons _ _ _ hg1, heq1]
      rfl
    refine ⟨hnew, holdlen, hold, (by show (0:Int) ≤ s.oldStartIdx + 1; omega), hb2, hb3, hb4, ?_, ?_, hops, hpairs, ?_, ?_⟩
    · show ((activeNew s).map keyStr).Perm
        ((activeO s.oldCh (s.oldStartIdx + 1) s.oldEndIdx).map keyStr)
      rw [← hAO]
      exact hpm
    · show ((activeO s.oldCh (s.oldStartIdx + 1) s.oldEndIdx).map keyStr).Nodup
      rw [← hAO]
      exact hadup
    · intro o ho
      rcases hreuse o ho with hp | ha
      · exact Or.inl hp
      · refine Or.inr ?_
        show o ∈ activeO s.oldCh (s.oldStartIdx + 1) s.oldEndIdx
        rw [← hAO]
        exact ha
    · intro m hm i o hi1 hi2 hio
      have hi1' : s.oldStartIdx + 1 ≤ i := hi1
      exact hmap m hm i o (by omega) hi2 hio
  · rename_i oldStart heq1
    split at hr
    · -- oldEndVnode undefined: retreat oldEndIdx
      rename_i heq2
      refine ⟨(fun h => by rw [← hr] at h; cases h), fun s' h => ?_⟩
      rw [← hr] at h
      obtain rfl := Option.some.inj h
      have hAO : activeOld s = activeO s.oldCh s.oldStartIdx (s.oldEndIdx - 1) := by
        unfold activeOld
        rw [activeO_concat _ _ _ hg1, heq2]
        simp
      refine ⟨hnew, holdlen, hold, hb1, (by show s.oldEndIdx - 1 < (olds.length : Int); omega), hb3, hb4, ?_, ?_, hops, hpairs, ?_, ?_⟩
      · show ((activeNew s).map keyStr).Perm
          ((activeO s.oldCh s.oldStartIdx (s.oldEndIdx - 1)).map keyStr)
        rw [← hAO]
        exact hpm
      · show ((activeO s.oldCh s.oldStartIdx (s.oldEndIdx - 1)).map keyStr).Nodup
        rw [← hAO]
        exact hadup
      · intro o ho
        rcases hreuse o ho with hp | ha
        · exact Or.inl hp
        · refine Or.inr ?_
          show o ∈ activeO s.oldCh s.oldStartIdx (s.oldEndIdx - 1)
          rw [← hAO]
          exact ha
      · intro m hm i o hi1 hi2 hio
        have hi2' : i ≤ s.oldEndIdx - 1 := hi2
        exact hmap m hm i o hi1 (by omega) hio
    · rename_i oldEnd heq2
      split at hr
      · rename_i newStart newEnd heq3 heq4
        -- decompositions used by several branches
        have hAOc : activeOld s = oldStart ::
            activeO s.oldCh (s.oldStartIdx + 1) s.oldEndIdx := by
          unfold activeOld
          rw [activeO_cons _ _ _ hg1, heq1]
          rfl
        have hAOe : activeOld s =
            activeO s.oldCh s.oldStartIdx (s.oldEndIdx - 1) ++ [oldEnd] := by
          unfold activeOld
          rw [activeO_concat _ _ _ hg1, heq2]
          rfl
        have hANc : activeNew s = newStart ::
            activeN s.newCh (s.newStartIdx + 1) s.newEndIdx := by
          unfold activeNew
          rw [activeN_cons _ _ _ hg2, heq3]
          rfl
        have hANe : activeNew s =
            activeN s.newCh s.newStartIdx (s.newEndIdx - 1) ++ [newEnd] := by
          unfold activeNew
          rw [activeN_concat _ _ _ hg2, heq4]
          rfl
        have hosMem : oldStart ∈ olds := holdsMem _ _ heq1
        have hoeMem : oldEnd ∈ olds := holdsMem _ _ heq2
        have hnsMem : newStart ∈ news := hNewMem _ _ heq3
        have hneMem : newEnd ∈ news := hNewMem _ _ heq4
        split at hr
        · -- old start / new start match
          rename_i hsv
          refine ⟨(fun h => by rw [← hr] at h; cases h), fun s' h => ?_⟩
          rw [← hr] at h
          obtain rfl := Option.some.inj h
          have hkeq : keyStr oldStart = keyStr newStart :=
            (hsame _ _ hosMem hnsMem).mp hsv
          refine ⟨hnew, holdlen, hold, (by show (0:Int) ≤ s.oldStartIdx + 1; omega), hb2, (by show (0:Int) ≤ s.newStartIdx + 1; omega), hb4, ?_, ?_, ?_, ?_, ?_, ?_⟩
          · show ((activeN s.newCh (s.newStartIdx + 1) s.newEndIdx).map keyStr).Perm
              ((activeO s.oldCh (s.oldStartIdx + 1) s.oldEndIdx).map keyStr)
            have := hpm
            rw [hAOc, hANc] at this
            simp only [List.map_cons] at this
            rw [← hkeq] at this
            exact this.cons_inv
          · show ((activeO s.oldCh (s.oldStartIdx + 1) s.oldEndIdx).map keyStr).Nodup
            have := hadup
            rw [hAOc] at this
            simp only [List.map_cons] at this
            exact this.of_cons
          · intro op hop
            rcases List.mem_append.mp hop with hop | hop
            · exact hops op hop
            · rw [List.mem_singleton.mp hop]
              exact ⟨fun n => by simp, fun o => by simp⟩
          · intro o n hmem
            rcases List.mem_append.mp hmem with hmem | hmem
            · exact hpairs o n hmem
            · obtain ⟨rfl, rfl⟩ := DiffOp.patchOp.inj (List.mem_singleton.mp hmem)
              exact ⟨hosMem, hnsMem, hkeq⟩
          · intro o ho
            rcases hreuse o ho with ⟨n, hn, hp⟩ | ha
            · exact Or.inl ⟨n, hn, List.mem_append_left _ hp⟩
            · rw [hAOc] at ha
              rcases List.mem_cons.mp ha with rfl | ha
              · exact Or.inl ⟨newStart, hnsMem,
                  List.mem_append_right _ (List.mem_singleton.mpr rfl)⟩
              · exact Or.inr ha
          · intro m hm i o hi1 hi2 hio
            have hi1' : s.oldStartIdx + 1 ≤ i := hi1
            exact hmap m hm i o (by omega) hi2 hio
        · split at hr
          · -- old end / new end match
            rename_i hsv
            refine ⟨(fun h => by rw [← hr] at h; cases h), fun s' h => ?_⟩
            rw [← hr] at h
            obtain rfl := Option.some.inj h
            have hkeq : keyStr oldEnd = keyStr newEnd :=
              (hsame _ _ hoeMem hneMem).mp hsv
            refine ⟨hnew, holdlen, hold, hb1, (by show s.oldEndIdx - 1 < (olds.length : Int); omega), hb3, (by show s.newEndIdx - 1 < (news.length : Int); omega), ?_, ?_, ?_, ?_, ?_, ?_⟩
            · show ((activeN s.newCh s.newStartIdx (s.newEndIdx - 1)).map keyStr).Perm
                ((activeO s.oldCh s.oldStartIdx (s.oldEndIdx - 1)).map keyStr)
              have := hpm
              rw [hAOe, hANe] at this
              rw [List.map_append, List.map_append] at this
              have h2 := (List.perm_append_singleton _ _).symm.trans
                (this.trans (List.perm_append_singleton _ _))
              simp only [List.map_singleton] at h2
              rw [← hkeq] at h2
              exact h2.cons_inv
            · show ((activeO s.oldCh s.oldStartIdx (s.oldEndIdx - 1)).map keyStr).Nodup
              have := hadup
              rw [hAOe] at this
              rw [List.map_append] at this
              exact (List.nodup_append.mp this).1
            · intro op hop
              rcases List.mem_append.mp hop with hop | hop
              · exact hops op hop
              · rw [List.mem_singleton.mp hop]
                exact ⟨fun n => by simp, fun o => by simp⟩
            · intro o n hmem
              rcases List.mem_append.mp hmem with hmem | hmem
              · exact hpairs o n hmem
              · obtain ⟨rfl, rfl⟩ := DiffOp.patchOp.inj (List.mem_singleton.mp hmem)
                exact ⟨hoeMem, hneMem, hkeq⟩
            · intro o ho
              rcases hreuse o ho with ⟨n, hn, hp⟩ | ha
              · exact Or.inl ⟨n, hn, List.mem_append_left _ hp⟩
              · rw [hAOe] at ha
                rcases List.mem_append.mp ha with ha | ha
                · exact Or.inr ha
                · rw [List.mem_singleton.mp ha]
                  exact Or.inl ⟨newEnd, hneMem,
                    List.mem_append_right _ (List.mem_singleton.mpr rfl)⟩
            · intro m hm i o hi1 hi2 hio
              have hi2' : i ≤ s.oldEndIdx - 1 := hi2
              exact hmap m hm i o hi1 (by omega) hio
          · split at hr
            · -- old start / new end match (moved right)
              rename_i hsv
              refine ⟨(fun h => by rw [← hr] at h; cases h), fun s' h => ?_⟩
              rw [← hr] at h
              obtain rfl := Option.some.inj h
              have hkeq : keyStr oldStart = keyStr newEnd :=
                (hsame _ _ hosMem hneMem).mp hsv
              refine ⟨hnew, holdlen, hold, (by show (0:Int) ≤ s.oldStartIdx + 1; omega), hb2, hb3, (by show s.newEndIdx - 1 < (news.length : Int); omega), ?_, ?_, ?_, ?_, ?_, ?_⟩
              · show ((activeN s.newCh s.newStartIdx (s.newEndIdx - 1)).map keyStr).Perm
                  ((activeO s.oldCh (s.oldStartIdx + 1) s.oldEndIdx).map keyStr)
                have := hpm
                rw [hAOc, hANe] at this
                rw [List.map_append] at this
                simp only [List.map_cons, List.map_singleton] at this
                have h2 := (List.perm_append_singleton _ _).symm.trans this
                rw [← hkeq] at h2
                exact h2.cons_inv
              · show ((activeO s.oldCh (s.oldStartIdx + 1) s.oldEndIdx).map keyStr).Nodup
                have := hadup
                rw [hAOc] at this
                simp only [List.map_cons] at this
                exact this.of_cons
              · intro op hop
                rcases List.mem_append.mp hop with hop | hop
                · rcases List.mem_append.mp hop with hop | hop
                  · exact hops op hop
                  · rw [List.mem_singleton.mp hop]
                    exact ⟨fun n => by simp, fun o => by simp⟩
                · split at hop
                  · rw [List.mem_singleton.mp hop]
                    exact ⟨fun n => by simp, fun o => by simp⟩
                  · cases hop
              · intro o n hmem
                rcases List.mem_append.mp hmem with hmem | hmem
                · rcases List.mem_append.mp hmem with hmem | hmem
                  · exact hpairs o n hmem
                  · obtain ⟨rfl, rfl⟩ := DiffOp.patchOp.inj (List.mem_singleton.mp hmem)
                    exact ⟨hosMem, hneMem, hkeq⟩
                · split at hmem
                  · cases List.mem_singleton.mp hmem
                  · cases hmem
              · intro o ho
                rcases hreuse o ho with ⟨n, hn, hp⟩ | ha
                · exact Or.inl ⟨n, hn,
                    List.mem_append_left _ (List.mem_append_left _ hp)⟩
                · rw [hAOc] at ha
                  rcases List.mem_cons.mp ha with rfl | ha
                  · exact Or.inl ⟨newEnd, hneMem, List.mem_append_left _
                      (List.mem_append_right _ (List.mem_singleton.mpr rfl))⟩
                  · exact Or.inr ha
              · intro m hm i o hi1 hi2 hio
                have hi1' : s.oldStartIdx + 1 ≤ i := hi1
                exact hmap m hm i o (by omega) hi2 hio
            · split at hr
              · -- old end / new start match (moved left)
                rename_i hsv
                refine ⟨(fun h => by rw [← hr] at h; cases h), fun s' h => ?_⟩
                rw [← hr] at h
                obtain rfl := Option.some.inj h
                have hkeq : keyStr oldEnd = keyStr newStart :=
                  (hsame _ _ hoeMem hnsMem).mp hsv
                refine ⟨hnew, holdlen, hold, hb1, (by show s.oldEndIdx - 1 < (olds.length : Int); omega), (by show (0:Int) ≤ s.newStartIdx + 1; omega), hb4, ?_, ?_, ?_, ?_, ?_, ?_⟩
                · show ((activeN s.newCh (s.newStartIdx + 1) s.newEndIdx).map keyStr).Perm
                    ((activeO s.oldCh s.oldStartIdx (s.oldEndIdx - 1)).map keyStr)
                  have := hpm
                  rw [hAOe, hANc] at this
                  rw [List.map_append] at this
                  simp only [List.map_cons, List.map_singleton] at this
                  have h2 := this.trans (List.perm_append_singleton _ _)
                  rw [← hkeq] at h2
                  exact h2.cons_inv
                · show ((activeO s.oldCh s.oldStartIdx (s.oldEndIdx - 1)).map keyStr).Nodup
                  have := hadup
                  rw [hAOe] at this
                  rw [List.map_append] at this
                  exact (List.nodup_append.mp this).1
                · intro op hop
                  rcases List.mem_append.mp hop with hop | hop
                  · rcases List.mem_append.mp hop with hop | hop
                    · exact hops op hop
                    · rw [List.mem_singleton.mp hop]
                      exact ⟨fun n => by simp, fun o => by simp⟩
                  · split at hop
                    · rw [List.mem_singleton.mp hop]
                      exact ⟨fun n => by simp, fun o => by simp⟩
                    · cases hop
                · intro o n hmem
                  rcases List.mem_append.mp hmem with hmem | hmem
                  · rcases List.mem_append.mp hmem with hmem | hmem
                    · exact hpairs o n hmem
                    · obtain ⟨rfl, rfl⟩ := DiffOp.patchOp.inj (List.mem_singleton.mp hmem)
                      exact ⟨hoeMem, hnsMem, hkeq⟩
                  · split at hmem
                    · cases List.mem_singleton.mp hmem
                    · cases hmem
                · intro o ho
                  rcases hreuse o ho with ⟨n, hn, hp⟩ | ha
                  · exact Or.inl ⟨n, hn,
                      List.mem_append_left _ (List.mem_append_left _ hp)⟩
                  · rw [hAOe] at ha
                    rcases List.mem_append.mp ha with ha | ha
                    · exact Or.inr ha
                    · rw [List.mem_singleton.mp ha]
                      exact Or.inl ⟨newStart, hnsMem, List.mem_append_left _
                        (List.mem_append_right _ (List.mem_singleton.mpr rfl))⟩
                · intro m hm i o hi1 hi2 hio
                  have hi2' : i ≤ s.oldEndIdx - 1 := hi2
                  exact hmap m hm i o hi1 (by omega) hio
              · -- fallback: keyed lookup
                rename_i hsv4
                -- the new-start key exists among the active old nodes
                have hnsAct : newStart ∈ activeNew s := by
                  unfold activeNew
                  exact mem_activeN.mpr ⟨s.newStartIdx, le_refl _, hg2, heq3⟩
                have hkMem : keyStr newStart ∈ (activeOld s).map keyStr :=
                  hpm.subset (List.mem_map_of_mem _ hnsAct)
                obtain ⟨o', ho'Act, ho'k⟩ := List.mem_map.mp hkMem
                obtain ⟨io, hio1, hio2, hioget⟩ := mem_activeO.mp ho'Act
                have ho'Mem : o' ∈ olds := holdsMem _ _ hioget
                have hsvm : sameVnodeP o' newStart = true :=
                  (hsame _ _ ho'Mem hnsMem).mpr ho'k
                have hdefNS : isDefV newStart.core.key = true := by
                  have hjk : jsEq o'.core.key newStart.core.key = true :=
                    sameVnode_keys hsvm
                  have := jsEq_eq hjk
                  rw [← this]
                  exact hkeys o' ho'Mem
                -- the key map (existing or freshly built) finds the entry
                have hmGood : ∀ i o, s.oldStartIdx ≤ i → i ≤ s.oldEndIdx →
                    getO s.oldCh i = some o →
                    mapGet (s.oldKeyToIdx.getD
                      (createKeyToOldIdx s.oldCh s.oldStartIdx s.oldEndIdx))
                      (keyStr o) = some i := by
                  intro i o hi1 hi2 hio
                  cases hOK : s.oldKeyToIdx with
                  | some m0 =>
                    exact hmap m0 hOK i o hi1 hi2 hio
                  | none =>
                    exact createKeyToOldIdx_lookup s.oldCh _ _ i o hi1 hi2 hio
                      (hkeys o (holdsMem _ _ hio)) hadup
                have hlook : (if isDefV newStart.core.key = true then
                    mapGet (s.oldKeyToIdx.getD
                      (createKeyToOldIdx s.oldCh s.oldStartIdx s.oldEndIdx))
                      (keyStr newStart)
                  else findIdxInOldL newStart s.oldCh s.oldStartIdx s.oldEndIdx) =
                    some io := by
                  rw [if_pos hdefNS, ← ho'k]
                  exact hmGood io o' hio1 hio2 hioget
                split at hr
                · -- lookup "failed": contradiction
                  rename_i heq5
                  rw [hlook] at heq5
                  cases heq5
                · rename_i idx heq5
                  rw [hlook] at heq5
                  obtain rfl := Option.some.inj heq5
                  split at hr
                  · -- looked-up slot undefined: contradiction
                    rename_i heq6
                    rw [hioget] at heq6
                    cases heq6
                  · rename_i vtm heq6
                    rw [hioget] at heq6
                    obtain rfl := Option.some.inj heq6
                    split at hr
                    · -- found and compatible: patch, null the slot, move
                      refine ⟨(fun h => by rw [← hr] at h; cases h), fun s' h => ?_⟩
                      rw [← hr] at h
                      obtain rfl := Option.some.inj h
                      have hio0 : 0 ≤ io := by omega
                      have hiolen : io.toNat < s.oldCh.length :=
                        (getO_bounds hioget).2
                      -- splitting the active old list around the nulled slot
                      have hAOs : activeOld s =
                          activeO s.oldCh s.oldStartIdx (io - 1) ++ o' ::
                            activeO s.oldCh (io + 1) s.oldEndIdx := by
                        unfold activeOld
                        rw [activeO_split _ _ _ io hio1 hio2, hioget]
                        simp
                      have hAOs' : activeO (setO s.oldCh io) s.oldStartIdx s.oldEndIdx =
                          activeO s.oldCh s.oldStartIdx (io - 1) ++
                            activeO s.oldCh (io + 1) s.oldEndIdx := by
                        rw [activeO_split _ _ _ io hio1 hio2,
                          getO_setO_self _ _ hio0 hiolen]
                        rw [activeO_congr fun i h1 h2 =>
                          getO_setO_ne s.oldCh io i (by omega)]
                        rw [activeO_congr fun i h1 h2 =>
                          getO_setO_ne s.oldCh io i (by omega)]
                        simp
                      refine ⟨hnew,
                        (by show (setO s.oldCh io).length = olds.length;
                            rw [setO_length]; exact holdlen), ?_, hb1, hb2,
                        (by show (0:Int) ≤ s.newStartIdx + 1; omega), hb4,
                        ?_, ?_, ?_, ?_, ?_, ?_⟩
                      · intro i
                        show getO (setO s.oldCh io) i = none ∨
                          getO (setO s.oldCh io) i = getN olds i
                        by_cases hii : i = io
                        · subst hii
                          exact Or.inl (getO_setO_self _ _ hio0 hiolen)
                        · rw [getO_setO_ne _ _ _ hii]
                          exact hold i
                      · show ((activeN s.newCh (s.newStartIdx + 1) s.newEndIdx).map keyStr).Perm
                          ((activeO (setO s.oldCh io) s.oldStartIdx s.oldEndIdx).map keyStr)
                        rw [hAOs']
                        have := hpm
                        rw [hANc, hAOs] at this
                        simp only [List.map_cons, List.map_append] at this
                        rw [List.map_append]
                        have h2 := this.trans List.perm_middle
                        rw [ho'k] at h2
                        exact h2.cons_inv
                      · show ((activeO (setO s.oldCh io) s.oldStartIdx s.oldEndIdx).map keyStr).Nodup
                        rw [hAOs']
                        have := hadup
                        rw [hAOs] at this
                        rw [List.map_append]
                        simp only [List.map_cons, List.map_append] at this
                        exact List.Nodup.sublist
                          ((List.sublist_cons_self _ _).append_left _) this
                      · intro op hop
                        rcases List.mem_append.mp hop with hop | hop
                        · rcases List.mem_append.mp hop with hop | hop
                          · exact hops op hop
                          · rw [List.mem_singleton.mp hop]
                            exact ⟨fun n => by simp, fun o => by simp⟩
                        · split at hop
                          · rw [List.mem_singleton.mp hop]
                            exact ⟨fun n => by simp, fun o => by simp⟩
                          · cases hop
                      · intro o n hmem
                        rcases List.mem_append.mp hmem with hmem | hmem
                        · rcases List.mem_append.mp hmem with hmem | hmem
                          · exact hpairs o n hmem
                          · obtain ⟨rfl, rfl⟩ := DiffOp.patchOp.inj
                              (List.mem_singleton.mp hmem)
                            exact ⟨ho'Mem, hnsMem, ho'k⟩
                        · split at hmem
                          · cases List.mem_singleton.mp hmem
                          · cases hmem
                      · intro o ho
                        rcases hreuse o ho with ⟨n, hn, hp⟩ | ha
                        · exact Or.inl ⟨n, hn,
                            List.mem_append_left _ (List.mem_append_left _ hp)⟩
                        · rw [hAOs] at ha
                          rcases List.mem_append.mp ha with ha | ha
                          · refine Or.inr ?_
                            show o ∈ activeO (setO s.oldCh io) s.oldStartIdx s.oldEndIdx
                            rw [hAOs']
                            exact List.mem_append_left _ ha
                          · rcases List.mem_cons.mp ha with rfl | ha
                            · exact Or.inl ⟨newStart, hnsMem, List.mem_append_left _
                                (List.mem_append_right _ (List.mem_singleton.mpr rfl))⟩
                            · refine Or.inr ?_
                              show o ∈ activeO (setO s.oldCh io) s.oldStartIdx s.oldEndIdx
                              rw [hAOs']
                              exact List.mem_append_right _ ha
                      · intro m hm i o hi1 hi2 hio
                        obtain rfl := Option.some.inj hm
                        by_cases hii : i = io
                        · subst hii
                          rw [getO_setO_self _ _ hio0 hiolen] at hio
                          cases hio
                        · rw [getO_setO_ne _ _ _ hii] at hio
                          exact hmGood i o hi1 hi2 hio
                    · -- found but not sameVnode: contradicts `hsvm`
                      rename_i hsvf
                      exact absurd hsvm hsvf
      · -- a new-children read at the cursor was undefined: impossible
        rename_i hcatch
        exact (hcatch newStart0 newEnd0 hns0 hne0).elim

/-- With fuel exceeding the measure the loop never exhausts its fuel: it
ends in `done` (with the guard false) or in `crash`. -/
lemma ucLoop_out (canMove : Bool) :
    ∀ (fuel : Nat) (s : UCState), ucMeasure s < fuel →
      (∃ s', ucLoop canMove fuel s = .done s' ∧ ucStep canMove s' = none) ∨
        ucLoop canMove fuel s = .crash := by
  intro fuel
  induction fuel with
  | zero => intro s h; omega
  | succ f ih =>
    intro s h
    simp only [ucLoop]
    cases hstep : ucStep canMove s with
    | none => exact Or.inl ⟨s, rfl, hstep⟩
    | some r =>
      cases r with
      | none => exact Or.inr rfl
      | some s' =>
        have hm := ucStep_measure canMove s s' hstep
        exact ih s' (by omega)

/-- In the keyed-permutation scenario the loop invariant is carried to the
final state and the loop cannot crash. -/
lemma ucLoop_inv (olds news : List PVNode) (canMove : Bool)
    (hkeys : ∀ o ∈ olds, isDefV o.core.key = true)
    (hsame : ∀ o n, o ∈ olds → n ∈ news →
      (sameVnodeP o n = true ↔ keyStr o = keyStr n)) :
    ∀ (fuel : Nat) (s : UCState), ucMeasure s < fuel → UCInv olds news s →
      ∃ s', ucLoop canMove fuel s = .done s' ∧ UCInv olds news s' ∧
        ucStep canMove s' = none := by
  intro fuel
  induction fuel with
  | zero => intro s h _; omega
  | succ f ih =>
    intro s h hinv
    simp only [ucLoop]
    cases hstep : ucStep canMove s with
    | none => exact ⟨s, rfl, hinv, hstep⟩
    | some r =>
      obtain ⟨hnc, hpres⟩ :=
        ucStep_preserves olds news canMove s hkeys hsame hinv r hstep
      cases r with
      | none => exact (hnc rfl).elim
      | some s' =>
        have hm := ucStep_measure canMove s s' hstep
        exact ih s' (by omega) (hpres s' rfl)

/-- The keyed-permutation invariant holds at the initial loop state. -/
lemma ucInit_inv (olds news : List PVNode)
    (hnodup : (olds.map keyStr).Nodup)
    (hperm : (news.map keyStr).Perm (olds.map keyStr)) :
    UCInv olds news (ucInit olds news) := by
  refine ⟨rfl, by simp [ucInit], ?_, ?_, ?_, ?_, ?_, ?_, ?_, ?_, ?_, ?_, ?_⟩
  · intro i
    exact Or.inr (getO_map_some olds i)
  · show (0 : Int) ≤ 0
    omega
  · show ((olds.length : Int) - 1) < (olds.length : Int)
    omega
  · show (0 : Int) ≤ 0
    omega
  · show ((news.length : Int) - 1) < (news.length : Int)
    omega
  · show ((activeN news 0 ((news.length : Int) - 1)).map keyStr).Perm
      ((activeO (olds.map some) 0 ((olds.length : Int) - 1)).map keyStr)
    rw [activeN_all, activeO_init, activeN_all]
    exact hperm
  · show ((activeO (olds.map some) 0 ((olds.length : Int) - 1)).map keyStr).Nodup
    rw [activeO_init, activeN_all]
    exact hnodup
  · intro op hop
    simp [ucInit] at hop
  · intro o n hmem
    simp [ucInit] at hmem
  · intro o ho
    refine Or.inr ?_
    show o ∈ activeO (olds.map some) 0 ((olds.length : Int) - 1)
    rw [activeO_init, activeN_all]
    exact ho
  · intro m hm
    simp [ucInit] at hm

/-- **C1.** After any completed run of `Watcher.get()`, the watcher's
subscription set equals exactly the set of dependencies read during that
run: deps subscribed last run but not read this run are removed from the
dep's subscriber list by `removeSub`, newly read deps are added exactly once
(deduplicated via the per-run `newDepIds` set), the resulting subscriber
occurrences are duplicate-free, and the well-formedness invariant is
re-established (so a dep that is no longer read no longer holds the watcher,
and notifying it cannot re-schedule the watcher). -/
theorem watcher_run_subscriptions_track_reads (s : WState) (h : WStateWF s)
    (reads : List Nat) :
    WStateWF (runGet s reads) ∧
      ∀ d, d ∈ (runGet s reads).subs ↔ d ∈ reads := by
  obtain ⟨h1, h2, h3, h4, h5, h6⟩ := h
  have hmid : MidRunInv s := by
    refine ⟨by simp [h1], by simp [h1, h2], h3, h4, h5, fun d => ?_⟩
    rw [h6 d]
    simp [h1]
  obtain ⟨⟨m1, m2, m3, m4, m5, m6⟩, hdeps, hdepIds, hnewMem⟩ :=
    foldl_addDep_spec reads s hmid
  set t := reads.foldl addDep s with ht
  obtain ⟨e1, e2⟩ := foldr_removeSub_spec t.newDepIds t.deps t.subs m5
  have hsubs : ∀ e, e ∈ (runGet s reads).subs ↔ e ∈ t.newDepIds := by
    intro e
    show e ∈ (cleanupDeps t).subs ↔ _
    unfold cleanupDeps
    simp only
    rw [e2 e, m6 e]
    constructor
    · rintro ⟨hd | ⟨hn, _⟩, hcond⟩
      · exact hcond hd
      · exact hn
    · intro hn
      by_cases hd : e ∈ t.deps
      · exact ⟨Or.inl hd, fun _ => hn⟩
      · exact ⟨Or.inr ⟨hn, m3 ▸ hd⟩, fun h' => absurd h' hd⟩
  have hreadMem : ∀ d, d ∈ t.newDepIds ↔ d ∈ reads := by
    intro d
    rw [hnewMem d, h1]
    simp
  constructor
  · refine ⟨rfl, rfl, m2.symm, by rw [show (runGet s reads).deps = t.newDeps from rfl, m2]; exact m1, ?_, ?_⟩
    · exact e1
    · intro d
      rw [hsubs d]
      show _ ↔ d ∈ t.newDeps
      rw [m2]
  · intro d
    rw [hsubs d, hreadMem d]

/-- Witness for C1: a watcher that previously read dep `1` re-runs reading
deps `2, 3, 2`; afterwards it is subscribed exactly to `{2, 3}` (dep `2`
once, despite being read twice) and no longer to dep `1`. -/
theorem watcher_run_subscriptions_track_reads_witness :
    WStateWF ⟨[1], [], [1], [], [1]⟩ ∧
      (WStateWF (runGet ⟨[1], [], [1], [], [1]⟩ [2, 3, 2]) ∧
        ∀ d, d ∈ (runGet ⟨[1], [], [1], [], [1]⟩ [2, 3, 2]).subs ↔ d ∈ [2, 3, 2]) := by
  have hwf : WStateWF ⟨[1], [], [1], [], [1]⟩ := by
    refine ⟨rfl, rfl, rfl, by simp, by simp, fun d => Iff.rfl⟩
  exact ⟨hwf, watcher_run_subscriptions_track_reads _ hwf [2, 3, 2]⟩

/-- **C8.** (a) With enough fuel for the decreasing measure, the
reconciliation loop of `updateChildren` always terminates (crashing only
where JS would throw): it reaches a state where the old or the new index
range is exhausted, and then the post phase bulk-creates the remaining
new children when the old range ran out first, and bulk-removes the
remaining defined old children when the new range ran out first.
(b) When the new children are a keyed permutation of the old children
(every old key defined, keys duplicate-free, `sameVnode` deciding exactly
key equality between the two sides), the diff finishes without crashing,
its operation trace contains no create and no remove operation — only
patches and moves — and every old child is patched against a key-equal new
child. -/
theorem updateChildren_exhaustion_and_keyed_reuse :
    (∀ (canMove : Bool) (fuel : Nat) (oldCh newCh : List PVNode),
      ucMeasure (ucInit oldCh newCh) < fuel →
      updateChildren canMove fuel oldCh newCh = .crash ∨
      ∃ s, updateChildren canMove fuel oldCh newCh = .done (postPhase s) ∧
        ucLoop canMove fuel (ucInit oldCh newCh) = .done s ∧
        (s.oldEndIdx < s.oldStartIdx ∨ s.newEndIdx < s.newStartIdx) ∧
        (s.oldEndIdx < s.oldStartIdx →
          (postPhase s).ops = s.ops ++ (activeNew s).map DiffOp.createOp) ∧
        (¬ s.oldEndIdx < s.oldStartIdx → s.newEndIdx < s.newStartIdx →
          (postPhase s).ops = s.ops ++ (activeOld s).map DiffOp.removeOp)) ∧
    (∀ (canMove : Bool) (fuel : Nat) (olds news : List PVNode),
      (∀ o ∈ olds, isDefV o.core.key = true) →
      ((olds.map keyStr).Nodup) →
      ((news.map keyStr).Perm (olds.map keyStr)) →
      (∀ o ∈ olds, ∀ n ∈ news, (sameVnodeP o n = true ↔ keyStr o = keyStr n)) →
      ucMeasure (ucInit olds news) < fuel →
      ∃ s, updateChildren canMove fuel olds news = .done s ∧
        (∀ op ∈ s.ops, (∀ n, op ≠ .createOp n) ∧ (∀ o, op ≠ .removeOp o)) ∧
        (∀ o ∈ olds, ∃ n ∈ news,
          DiffOp.patchOp o n ∈ s.ops ∧ keyStr o = keyStr n)) := by
  constructor
  · intro canMove fuel oldCh newCh hfuel
    rcases ucLoop_out canMove fuel (ucInit oldCh newCh) hfuel with
      ⟨s, hloop, hnone⟩ | hcr
    · refine Or.inr ⟨s, ?_, hloop, ?_, ?_, ?_⟩
      · unfold updateChildren
        rw [hloop]
      · have hg := (ucStep_none_iff canMove s).mp hnone
        omega
      · intro h
        unfold postPhase
        rw [if_pos h]
        show s.ops ++ ucCreates s = s.ops ++ (activeNew s).map DiffOp.createOp
        rw [ucCreates_eq_map]
      · intro h1 h2
        unfold postPhase
        rw [if_neg h1, if_pos h2]
        show s.ops ++ ucRemoves s = s.ops ++ (activeOld s).map DiffOp.removeOp
        rw [ucRemoves_eq_map]
    · refine Or.inl ?_
      unfold updateChildren
      rw [hcr]
  · intro canMove fuel olds news hkeys hnodup hperm hsame hfuel
    obtain ⟨s, hloop, hinv, hnone⟩ :=
      ucLoop_inv olds news canMove hkeys
        (fun o n ho hn => hsame o ho n hn) fuel (ucInit olds news) hfuel
        (ucInit_inv olds news hnodup hperm)
    have hguard := (ucStep_none_iff canMove s).mp hnone
    have hdisj : s.oldEndIdx < s.oldStartIdx ∨ s.newEndIdx < s.newStartIdx := by
      omega
    have hAO : activeOld s = [] := by
      rcases hdisj with h | h
      · exact activeO_empty _ _ _ h
      · have h1 : activeNew s = [] := activeN_empty _ _ _ h
        have h2 := hinv.hperm
        rw [h1] at h2
        have h3 : (activeOld s).map keyStr = [] := h2.symm.eq_nil
        exact List.map_eq_nil_iff.mp h3
    have hAN : activeNew s = [] := by
      have h2 := hinv.hperm
      rw [hAO] at h2
      simp only [List.map_nil] at h2
      exact List.map_eq_nil_iff.mp h2.eq_nil
    have hC : ucCreates s = [] := by
      rw [ucCreates_eq_map, hAN]
      rfl
    have hR : ucRemoves s = [] := by
      rw [ucRemoves_eq_map, hAO]
      rfl
    have hpp : (postPhase s).ops = s.ops := by
      unfold postPhase
      split
      · show s.ops ++ ucCreates s = s.ops
        rw [hC, List.append_nil]
      · split
        · show s.ops ++ ucRemoves s = s.ops
          rw [hR, List.append_nil]
        · rfl
    refine ⟨postPhase s, ?_, ?_, ?_⟩
    · unfold updateChildren
      rw [hloop]
    · intro op hop
      rw [hpp] at hop
      exact hinv.hops op hop
    · intro o ho
      rcases hinv.hreuse o ho with ⟨n, hn, hp⟩ | hact
      · obtain ⟨_, _, hk⟩ := hinv.hpairs o n hp
        exact ⟨n, hn, by rw [hpp]; exact hp, hk⟩
      · rw [hAO] at hact
        cases hact

/-- Witness for C8: both parts instantiated on the spec's keyed-reorder
example — old keys 1, 2, 3 against new keys 3, 1, 2 with fuel 7. -/
theorem updateChildren_exhaustion_and_keyed_reuse_witness :
    (updateChildren true 7 demoOld demoNew = .crash ∨
      ∃ s, updateChildren true 7 demoOld demoNew = .done (postPhase s) ∧
        ucLoop true 7 (ucInit demoOld demoNew) = .done s ∧
        (s.oldEndIdx < s.oldStartIdx ∨ s.newEndIdx < s.newStartIdx) ∧
        (s.oldEndIdx < s.oldStartIdx →
          (postPhase s).ops = s.ops ++ (activeNew s).map DiffOp.createOp) ∧
        (¬ s.oldEndIdx < s.oldStartIdx → s.newEndIdx < s.newStartIdx →
          (postPhase s).ops = s.ops ++ (activeOld s).map DiffOp.removeOp)) ∧
    (∃ s, updateChildren true 7 demoOld demoNew = .done s ∧
      (∀ op ∈ s.ops, (∀ n, op ≠ .createOp n) ∧ (∀ o, op ≠ .removeOp o)) ∧
      (∀ o ∈ demoOld, ∃ n ∈ demoNew,
        DiffOp.patchOp o n ∈ s.ops ∧ keyStr o = keyStr n)) :=
  ⟨updateChildren_exhaustion_and_keyed_reuse.1 true 7 demoOld demoNew
      (by decide),
    updateChildren_exhaustion_and_keyed_reuse.2 true 7 demoOld demoNew
      (by decide) (by decide) (by decide) (by decide) (by decide)⟩

end VueCore
